import Mathlib

/-!
Verification of the `mcp-hydrolix` query/metadata gateway.

This file shallowly embeds the parts of the repository that the checked
claims are about:

* `mcp_hydrolix/pagination.py` — cursor encoding (`encode_cursor`,
  `decode_cursor`), query hashing (`hash_query`) and cursor parameter
  validation (`validate_cursor_params`).  The Python code delegates to the
  standard `json`, `base64` and `hashlib` libraries; these are embedded here
  as executable Lean functions (a JSON printer/parser in the fragment the
  cursors use, URL-safe base64, UTF-8 and SHA-256).
* `mcp_hydrolix/mcp_server.py` — the summary-table classification helpers
  (`extract_function_from_type`, `get_merge_function`,
  `enrich_column_metadata`, `classify_table_columns`), the metadata query
  construction of `_populate_table_metadata`, the pagination logic of
  `list_tables` and the cursor/pagination prefix of `run_select_query`
  (`_add_pagination_to_query`).
* `mcp_hydrolix/auth/mcp_providers.py` — `ChainedAuthBackend.authenticate`
  and the backend list built by `HydrolixCredentialChain.get_middleware`.
* agent-layer tool wrappers
  (`_assistant/backend/src/hdx_agent/tools/mcp_hydrolix2.py` and
  `tools/clickhouse.py`) — the SELECT/WITH guard of the wrapper
  `run_select_query` and the identifier validation of `describe_table`.

Modelling conventions: machine-independent Python semantics are embedded
over `Nat`/`Int`/`String`; byte strings are `List Nat` with entries below
256; Python dictionaries appear as association lists in insertion order;
fallible Python code returns `Option`/`Except`.  Character-level models of
`str.upper`/`str.isalnum` follow Python on the ASCII range (the inputs the
claims exercise); this is noted at each definition.
-/

namespace Hdx

/-! ## Characters used by the JSON printer and parser

Written via `Char.ofNat` so the source is plain ASCII throughout. -/

def quoteC : Char := Char.ofNat 34

def bslashC : Char := Char.ofNat 92

def lbraceC : Char := Char.ofNat 123

def rbraceC : Char := Char.ofNat 125

def lbrackC : Char := Char.ofNat 91

def rbrackC : Char := Char.ofNat 93

def commaC : Char := Char.ofNat 44

def colonC : Char := Char.ofNat 58

def spaceC : Char := Char.ofNat 32

def tabC : Char := Char.ofNat 9

def nlC : Char := Char.ofNat 10

def crC : Char := Char.ofNat 13

def minusC : Char := Char.ofNat 45

/-! ## JSON values

The JSON fragment used by the cursor protocol: `null`, booleans, (arbitrary
precision) integers, strings, arrays and objects.  Python `dict`s appear as
association lists in insertion order (`JsonObj`); Python floats are outside
the fragment (cursors never carry them). -/

mutual

inductive Json where
  | null : Json
  | bool (b : Bool) : Json
  | int (n : Int) : Json
  | str (s : String) : Json
  | arr (xs : JsonList) : Json
  | obj (kvs : JsonObj) : Json
deriving DecidableEq, Repr

inductive JsonList where
  | nil : JsonList
  | cons (hd : Json) (tl : JsonList) : JsonList
deriving DecidableEq, Repr

inductive JsonObj where
  | nil : JsonObj
  | cons (key : String) (val : Json) (tl : JsonObj) : JsonObj
deriving DecidableEq, Repr

end

/-- Lookup in a JSON object: the model of Python `dict.get(key)` (first
binding wins; Python dicts have distinct keys, so this is exact). -/
def JsonObj.get : JsonObj → String → Option Json
  | .nil, _ => none
  | .cons k v tl, key => if k = key then some v else tl.get key

/-- Code-point-lexicographic comparison of strings, as character lists:
the order Python `sorted` uses on `str` keys. -/
def keyLt : List Char → List Char → Bool
  | [], [] => false
  | [], _ :: _ => true
  | _ :: _, [] => false
  | c :: cs, d :: ds =>
    if c.toNat < d.toNat then true
    else if d.toNat < c.toNat then false
    else keyLt cs ds

/-- Insert a key/value pair into a key-ordered object (strictly before the
first key that is not below the inserted one).  Used to model the
`sort_keys` behaviour of `json.dumps`. -/
def objInsert (k : String) (v : Json) : JsonObj → JsonObj
  | .nil => .cons k v .nil
  | .cons l w tl =>
    if keyLt k.data l.data then .cons k v (.cons l w tl) else .cons l w (objInsert k v tl)

mutual

/-- Recursively sort every object's keys: the canonical form that
`json.dumps(..., sort_keys=True)` serializes.  Python `dict` equality is
key-order-insensitive, so a dict is represented here by its canonical
(key-sorted) association list. -/
def canon : Json → Json
  | .null => .null
  | .bool b => .bool b
  | .int n => .int n
  | .str s => .str s
  | .arr xs => .arr (canonL xs)
  | .obj kvs => .obj (canonO kvs)
termination_by structural j => j

def canonL : JsonList → JsonList
  | .nil => .nil
  | .cons x xs => .cons (canon x) (canonL xs)
termination_by structural xs => xs

def canonO : JsonObj → JsonObj
  | .nil => .nil
  | .cons k v tl => objInsert k (canon v) (canonO tl)
termination_by structural kvs => kvs

end

/-! ## The JSON printer: `json.dumps`

`encode_cursor` calls `json.dumps(cursor_data, sort_keys=True)` with the
default separators `", "` / `": "` and the default `ensure_ascii=True`.
The printer below reproduces that byte for byte on the embedded fragment:
ASCII characters other than the quote, the backslash and controls are
printed literally, `\b \t \n \f \r \" \\` use the two-character escapes,
all other characters become lowercase `\uXXXX` escapes (a surrogate pair
for code points above `0xFFFF`). -/

def hexDigitChar (n : Nat) : Char :=
  if n < 10 then Char.ofNat (48 + n) else Char.ofNat (87 + n)

def toHex4 (n : Nat) : List Char :=
  [hexDigitChar (n / 4096 % 16), hexDigitChar (n / 256 % 16),
   hexDigitChar (n / 16 % 16), hexDigitChar (n % 16)]

def escapeChar (c : Char) : List Char :=
  if c = quoteC then [bslashC, quoteC]
  else if c = bslashC then [bslashC, bslashC]
  else if c = Char.ofNat 8 then [bslashC, 'b']
  else if c = tabC then [bslashC, 't']
  else if c = nlC then [bslashC, 'n']
  else if c = Char.ofNat 12 then [bslashC, 'f']
  else if c = crC then [bslashC, 'r']
  else if c.toNat < 32 ∨ 127 ≤ c.toNat then
    if c.toNat < 65536 then bslashC :: 'u' :: toHex4 c.toNat
    else
      bslashC :: 'u' :: toHex4 (55296 + (c.toNat - 65536) / 1024) ++
        (bslashC :: 'u' :: toHex4 (56320 + (c.toNat - 65536) % 1024))
  else [c]

def printStr (s : String) : List Char :=
  quoteC :: (s.data.map escapeChar).flatten ++ [quoteC]

/-- Decimal digits of a natural number, most significant first (`fuel`
bounds the digit count; `n / 10 < n` for `n ≥ 10`, so `n + 1` suffices). -/
def natDigitsF : Nat → Nat → List Char
  | 0, _ => []
  | fuel + 1, n =>
    if n < 10 then [Char.ofNat (48 + n)]
    else natDigitsF fuel (n / 10) ++ [Char.ofNat (48 + n % 10)]

def natDigits (n : Nat) : List Char := natDigitsF (n + 1) n

/-- Decimal form of a Python `int` (`str(i)`). -/
def printInt (i : Int) : List Char :=
  if i < 0 then minusC :: natDigits i.natAbs else natDigits i.natAbs

mutual

/-- The body of `json.dumps` (without the key sorting, which `dumps`
applies first; see `canon`). -/
def printJ : Json → List Char
  | .null => 'n' :: ['u', 'l', 'l']
  | .bool true => 't' :: ['r', 'u', 'e']
  | .bool false => 'f' :: ['a', 'l', 's', 'e']
  | .int n => printInt n
  | .str s => printStr s
  | .arr xs => lbrackC :: printL xs ++ [rbrackC]
  | .obj kvs => lbraceC :: printO kvs ++ [rbraceC]
termination_by structural j => j

def printL : JsonList → List Char
  | .nil => []
  | .cons x tl => printJ x ++ printSepL tl
termination_by structural xs => xs

def printSepL : JsonList → List Char
  | .nil => []
  | .cons x tl => commaC :: spaceC :: printJ x ++ printSepL tl
termination_by structural xs => xs

def printO : JsonObj → List Char
  | .nil => []
  | .cons k v tl => printStr k ++ colonC :: spaceC :: printJ v ++ printSepO tl
termination_by structural kvs => kvs

def printSepO : JsonObj → List Char
  | .nil => []
  | .cons k v tl => commaC :: spaceC :: printStr k ++ colonC :: spaceC :: printJ v ++ printSepO tl
termination_by structural kvs => kvs

end

/-- `json.dumps(j, sort_keys=True)` on the embedded fragment. -/
def dumps (j : Json) : List Char := printJ (canon j)

end Hdx

namespace Hdx

/-! ## The JSON parser: `json.loads`

`decode_cursor` calls `json.loads` on the decoded text.  The parser below
implements the JSON grammar that the Python decoder accepts, restricted to
the embedded fragment: numbers with a fraction or exponent part (floats)
are rejected rather than parsed, and a lone surrogate escape is rejected
(Lean strings range over unicode scalar values).  Neither case is
producible by `encode_cursor`.  In strict mode (the default) an unescaped
control character below `0x20` inside a string is an error. -/

/-- JSON whitespace accepted between tokens (space, tab, newline, return). -/
def isJsonWs (c : Char) : Bool :=
  c = spaceC ∨ c = tabC ∨ c = nlC ∨ c = crC

def skipWs : List Char → List Char
  | [] => []
  | c :: cs => if isJsonWs c then skipWs cs else c :: cs

def hexVal (c : Char) : Option Nat :=
  if 48 ≤ c.toNat ∧ c.toNat ≤ 57 then some (c.toNat - 48)
  else if 97 ≤ c.toNat ∧ c.toNat ≤ 102 then some (c.toNat - 87)
  else if 65 ≤ c.toNat ∧ c.toNat ≤ 70 then some (c.toNat - 55)
  else none

def hexVal4 (a b c d : Char) : Option Nat := do
  let va ← hexVal a
  let vb ← hexVal b
  let vc ← hexVal c
  let vd ← hexVal d
  some (va * 4096 + vb * 256 + vc * 16 + vd)

/-- Translate a short escape character to the character it denotes, when it
is one of the eight short escapes. -/
def shortEscape (e : Char) : Option Char :=
  if e = quoteC then some quoteC
  else if e = bslashC then some bslashC
  else if e = Char.ofNat 47 then some (Char.ofNat 47)
  else if e = 'b' then some (Char.ofNat 8)
  else if e = 'f' then some (Char.ofNat 12)
  else if e = 'n' then some nlC
  else if e = 'r' then some crC
  else if e = 't' then some tabC
  else none

/-- String body parser, positioned right after the opening quote; returns
the characters of the string and the input after the closing quote.
`fuel` decreases once per produced character (each step consumes at least
one input character, so `input length + 1` always suffices; see
`parseStr`). -/
def parseStrBody : Nat → List Char → Option (List Char × List Char)
  | 0, _ => none
  | fuel + 1, cs =>
    match cs with
    | [] => none
    | c :: rest =>
        if c = quoteC then some ([], rest)
        else if c = bslashC then
          match rest with
          | [] => none
          | e :: rest2 =>
            if e = 'u' then
              match rest2 with
              | a :: b :: c2 :: d :: rest3 =>
                match hexVal4 a b c2 d with
                | none => none
                | some v =>
                  if 55296 ≤ v ∧ v ≤ 56319 then
                    -- high surrogate: must be followed by an escaped low surrogate
                    match rest3 with
                    | b1 :: u1 :: a2 :: b2 :: c3 :: d2 :: rest5 =>
                      if b1 = bslashC ∧ u1 = 'u' then
                        match hexVal4 a2 b2 c3 d2 with
                        | none => none
                        | some w =>
                          if 56320 ≤ w ∧ w ≤ 57343 then
                            match parseStrBody fuel rest5 with
                            | none => none
                            | some (s, r) =>
                              some (Char.ofNat (65536 + (v - 55296) * 1024 + (w - 56320)) :: s, r)
                          else none
                      else none
                    | _ => none
                  else if 56320 ≤ v ∧ v ≤ 57343 then none
                  else
                    match parseStrBody fuel rest3 with
                    | none => none
                    | some (s, r) => some (Char.ofNat v :: s, r)
              | _ => none
            else
              match shortEscape e with
              | none => none
              | some c2 =>
                match parseStrBody fuel rest2 with
                | none => none
                | some (s, r) => some (c2 :: s, r)
        else if c.toNat < 32 then none
        else
          match parseStrBody fuel rest with
          | none => none
          | some (s, r) => some (c :: s, r)



/-- String parser at a call site: the fuel is the input length plus one,
which never exhausts (every step consumes at least one character). -/
def parseStr (cs : List Char) : Option (List Char × List Char) :=
  parseStrBody (cs.length + 1) cs

/-- ASCII digit test (`'0' <= c <= '9'`), as the number scanner checks. -/
def isDig (c : Char) : Bool :=
  48 ≤ c.toNat && c.toNat ≤ 57

/-- Longest digit run at the front of the input. -/
def takeDigits : List Char → List Char × List Char
  | [] => ([], [])
  | c :: rest =>
    if isDig c then
      let (ds, r) := takeDigits rest
      (c :: ds, r)
    else ([], c :: rest)

def digitsVal (ds : List Char) : Nat :=
  ds.foldl (fun a c => a * 10 + (c.toNat - 48)) 0

/-- Integer parser following Python's JSON number regex
`(-?(?:0|[1-9]\d*))(\.\d+)?([eE][-+]?\d+)?`: an optional minus sign, then
`0` or a nonzero-led digit run; a following fraction or exponent part would
make the number a float, which is outside the embedded fragment and
rejected. -/
def parseIntTok (cs : List Char) : Option (Int × List Char) :=
  let (neg, cs1) : Bool × List Char :=
    match cs with
    | c :: r => if c = minusC then (true, r) else (false, cs)
    | [] => (false, cs)
  match cs1 with
  | [] => none
  | c :: rest =>
    if c = '0' then
      match rest with
      | r1 :: _ =>
        if r1 = Char.ofNat 46 ∨ r1 = 'e' ∨ r1 = 'E' then none
        else some (0, rest)
      | [] => some (0, rest)
    else if isDig c then
      let (ds, r) := takeDigits rest
      match r with
      | r1 :: _ =>
        if r1 = Char.ofNat 46 ∨ r1 = 'e' ∨ r1 = 'E' then none
        else some (Int.ofNat (digitsVal (c :: ds)) * (if neg then -1 else 1), r)
      | [] => some (Int.ofNat (digitsVal (c :: ds)) * (if neg then -1 else 1), r)
    else none

mutual

/-- Value parser (`fuel` bounds the nesting/step count; every recursive
call decrements it, and `needJ` below computes a sufficient budget). -/
def parseValue : Nat → List Char → Option (Json × List Char)
  | 0, _ => none
  | f + 1, cs =>
    match skipWs cs with
    | [] => none
    | c :: rest =>
      if c = lbraceC then
        match parseObjStart f rest with
        | none => none
        | some (kvs, r) => some (.obj kvs, r)
      else if c = lbrackC then
        match parseArrStart f rest with
        | none => none
        | some (xs, r) => some (.arr xs, r)
      else if c = quoteC then
        match parseStr rest with
        | none => none
        | some (s, r) => some (.str (String.mk s), r)
      else if c = 'n' then
        match rest with
        | 'u' :: 'l' :: 'l' :: r => some (.null, r)
        | _ => none
      else if c = 't' then
        match rest with
        | 'r' :: 'u' :: 'e' :: r => some (.bool true, r)
        | _ => none
      else if c = 'f' then
        match rest with
        | 'a' :: 'l' :: 's' :: 'e' :: r => some (.bool false, r)
        | _ => none
      else
        match parseIntTok (c :: rest) with
        | none => none
        | some (n, r) => some (.int n, r)
termination_by structural fuel => fuel

/-- Array parser, positioned after the opening bracket. -/
def parseArrStart : Nat → List Char → Option (JsonList × List Char)
  | 0, _ => none
  | f + 1, cs =>
    match skipWs cs with
    | [] => none
    | c :: rest =>
      if c = rbrackC then some (.nil, rest)
      else
        match parseValue f cs with
        | none => none
        | some (v, r) =>
          match parseArrTail f r with
          | none => none
          | some (tl, r2) => some (.cons v tl, r2)
termination_by structural fuel => fuel

/-- Array continuation parser, positioned after a complete element. -/
def parseArrTail : Nat → List Char → Option (JsonList × List Char)
  | 0, _ => none
  | f + 1, cs =>
    match skipWs cs with
    | [] => none
    | c :: rest =>
      if c = rbrackC then some (.nil, rest)
      else if c = commaC then
        match parseValue f rest with
        | none => none
        | some (v, r) =>
          match parseArrTail f r with
          | none => none
          | some (tl, r2) => some (.cons v tl, r2)
      else none
termination_by structural fuel => fuel

/-- Object parser, positioned after the opening brace. -/
def parseObjStart : Nat → List Char → Option (JsonObj × List Char)
  | 0, _ => none
  | f + 1, cs =>
    match skipWs cs with
    | [] => none
    | c :: rest =>
      if c = rbraceC then some (.nil, rest)
      else if c = quoteC then
        match parseStr rest with
        | none => none
        | some (k, r) =>
          match skipWs r with
          | c2 :: r2 =>
            if c2 = colonC then
              match parseValue f r2 with
              | none => none
              | some (v, r3) =>
                match parseObjTail f r3 with
                | none => none
                | some (tl, r4) => some (.cons (String.mk k) v tl, r4)
            else none
          | [] => none
      else none
termination_by structural fuel => fuel

/-- Object continuation parser, positioned after a complete member. -/
def parseObjTail : Nat → List Char → Option (JsonObj × List Char)
  | 0, _ => none
  | f + 1, cs =>
    match skipWs cs with
    | [] => none
    | c :: rest =>
      if c = rbraceC then some (.nil, rest)
      else if c = commaC then
        match skipWs rest with
        | c2 :: r2 =>
          if c2 = quoteC then
            match parseStr r2 with
            | none => none
            | some (k, r3) =>
              match skipWs r3 with
              | c3 :: r4 =>
                if c3 = colonC then
                  match parseValue f r4 with
                  | none => none
                  | some (v, r5) =>
                    match parseObjTail f r5 with
                    | none => none
                    | some (tl, r6) => some (.cons (String.mk k) v tl, r6)
                else none
              | [] => none
          else none
        | [] => none
      else none
termination_by structural fuel => fuel

end

/-- `json.loads`: parse one value and require only whitespace after it
("Extra data" is an error). -/
def loads (cs : List Char) : Option Json :=
  match parseValue (cs.length + 1) cs with
  | none => none
  | some (j, rest) => if skipWs rest = [] then some j else none

end Hdx

namespace Hdx

/-! ## UTF-8

`str.encode()` / `bytes.decode()` on the cursor text.  Bytes are `Nat`s
below 256.  The decoder is strict (invalid sequences, overlong forms and
surrogate code points are errors), as in Python. -/

def utf8Char (c : Char) : List Nat :=
  let n := c.toNat
  if n < 128 then [n]
  else if n < 2048 then [192 + n / 64, 128 + n % 64]
  else if n < 65536 then [224 + n / 4096, 128 + n / 64 % 64, 128 + n % 64]
  else [240 + n / 262144, 128 + n / 4096 % 64, 128 + n / 64 % 64, 128 + n % 64]

def utf8EncodeL (cs : List Char) : List Nat := (cs.map utf8Char).flatten

def contByte (b : Nat) : Bool := 128 ≤ b ∧ b < 192

def utf8DecodeF : Nat → List Nat → Option (List Char)
  | 0, _ => none
  | _ + 1, [] => some []
  | fuel + 1, b :: rest =>
    if b < 128 then
      match utf8DecodeF fuel rest with
      | none => none
      | some s => some (Char.ofNat b :: s)
    else if b < 194 then none
    else if b < 224 then
      match rest with
      | b2 :: rest2 =>
        if contByte b2 then
          match utf8DecodeF fuel rest2 with
          | none => none
          | some s => some (Char.ofNat ((b - 192) * 64 + (b2 - 128)) :: s)
        else none
      | _ => none
    else if b < 240 then
      match rest with
      | b2 :: b3 :: rest2 =>
        if contByte b2 ∧ contByte b3 then
          let v := (b - 224) * 4096 + (b2 - 128) * 64 + (b3 - 128)
          if 2048 ≤ v ∧ ¬(55296 ≤ v ∧ v ≤ 57343) then
            match utf8DecodeF fuel rest2 with
            | none => none
            | some s => some (Char.ofNat v :: s)
          else none
        else none
      | _ => none
    else if b < 245 then
      match rest with
      | b2 :: b3 :: b4 :: rest2 =>
        if contByte b2 ∧ contByte b3 ∧ contByte b4 then
          let v := (b - 240) * 262144 + (b2 - 128) * 4096 + (b3 - 128) * 64 + (b4 - 128)
          if 65536 ≤ v ∧ v ≤ 1114111 then
            match utf8DecodeF fuel rest2 with
            | none => none
            | some s => some (Char.ofNat v :: s)
          else none
        else none
      | _ => none
    else none
termination_by structural fuel => fuel

/-- Strict UTF-8 decoding of a byte list.  Every step of `utf8DecodeF`
consumes at least one byte, so fuel `length + 1` never runs out. -/
def utf8Decode (bs : List Nat) : Option (List Char) :=
  utf8DecodeF (bs.length + 1) bs

/-! ## URL-safe base64

`base64.urlsafe_b64encode` / `base64.urlsafe_b64decode`.  The decoder
mirrors Python's laxness: the URL-safe characters are translated to the
standard alphabet, characters outside the standard alphabet are discarded,
and the result must consist of four-character groups (otherwise a padding
error, hence `none`). -/

def eqC : Char := Char.ofNat 61

def plusC : Char := Char.ofNat 43

def slashC : Char := Char.ofNat 47

def b64Char (n : Nat) : Char :=
  ("ABCDEFGHIJKLMNOPQRSTUVWXYZabcdefghijklmnopqrstuvwxyz0123456789-_".data).getD n 'A'

def b64Encode : List Nat → List Char
  | b1 :: b2 :: b3 :: rest =>
    b64Char (b1 / 4) :: b64Char (b1 % 4 * 16 + b2 / 16) ::
      b64Char (b2 % 16 * 4 + b3 / 64) :: b64Char (b3 % 64) :: b64Encode rest
  | [b1, b2] => [b64Char (b1 / 4), b64Char (b1 % 4 * 16 + b2 / 16), b64Char (b2 % 16 * 4), eqC]
  | [b1] => [b64Char (b1 / 4), b64Char (b1 % 4 * 16), eqC, eqC]
  | [] => []

/-- Sextet value of a standard-alphabet character. -/
def b64Val (c : Char) : Option Nat :=
  if 65 ≤ c.toNat ∧ c.toNat ≤ 90 then some (c.toNat - 65)
  else if 97 ≤ c.toNat ∧ c.toNat ≤ 122 then some (c.toNat - 71)
  else if 48 ≤ c.toNat ∧ c.toNat ≤ 57 then some (c.toNat + 4)
  else if c = plusC then some 62
  else if c = slashC then some 63
  else none

def urlsafeTranslate (c : Char) : Char :=
  if c = minusC then plusC else if c = Char.ofNat 95 then slashC else c

def b64DecodeGroups : List Char → Option (List Nat)
  | [] => some []
  | c1 :: c2 :: c3 :: c4 :: rest =>
    match b64Val c1, b64Val c2 with
    | some s1, some s2 =>
      if c3 = eqC ∧ c4 = eqC ∧ rest = [] then
        some [s1 * 4 + s2 / 16]
      else
        match b64Val c3 with
        | some s3 =>
          if c4 = eqC ∧ rest = [] then
            some [s1 * 4 + s2 / 16, s2 % 16 * 16 + s3 / 4]
          else
            match b64Val c4 with
            | some s4 =>
              match b64DecodeGroups rest with
              | none => none
              | some bs =>
                some ((s1 * 4 + s2 / 16) :: (s2 % 16 * 16 + s3 / 4) :: (s3 % 4 * 64 + s4) :: bs)
            | none => none
        | none => none
    | _, _ => none
  | _ => none

def b64Decode (cs : List Char) : Option (List Nat) :=
  b64DecodeGroups
    ((cs.map urlsafeTranslate).filter fun c => (b64Val c).isSome ∨ c = eqC)

end Hdx

namespace Hdx

/-! ## SHA-256 (`hashlib.sha256(...).hexdigest()`)

A direct FIPS-180-4 implementation over `Nat` bytes, with 32-bit words
represented as `Nat` reduced modulo `2^32`. -/

def w32 (n : Nat) : Nat := n % 4294967296

def rotr32 (n x : Nat) : Nat := w32 ((x >>> n) ||| (x <<< (32 - n)))

def shaCh (x y z : Nat) : Nat := (x &&& y) ^^^ ((x ^^^ 4294967295) &&& z)

def shaMaj (x y z : Nat) : Nat := (x &&& y) ^^^ (x &&& z) ^^^ (y &&& z)

def bigSigma0 (x : Nat) : Nat := rotr32 2 x ^^^ rotr32 13 x ^^^ rotr32 22 x

def bigSigma1 (x : Nat) : Nat := rotr32 6 x ^^^ rotr32 11 x ^^^ rotr32 25 x

def smallSigma0 (x : Nat) : Nat := rotr32 7 x ^^^ rotr32 18 x ^^^ (x >>> 3)

def smallSigma1 (x : Nat) : Nat := rotr32 17 x ^^^ rotr32 19 x ^^^ (x >>> 10)

def shaK : List Nat :=
  [1116352408, 1899447441, 3049323471, 3921009573, 961987163, 1508970993,
   2453635748, 2870763221, 3624381080, 310598401, 607225278, 1426881987,
   1925078388, 2162078206, 2614888103, 3248222580, 3835390401, 4022224774,
   264347078, 604807628, 770255983, 1249150122, 1555081692, 1996064986,
   2554220882, 2821834349, 2952996808, 3210313671, 3336571891, 3584528711,
   113926993, 338241895, 666307205, 773529912, 1294757372, 1396182291,
   1695183700, 1986661051, 2177026350, 2456956037, 2730485921, 2820302411,
   3259730800, 3345764771, 3516065817, 3600352804, 4094571909, 275423344,
   430227734, 506948616, 659060556, 883997877, 958139571, 1322822218,
   1537002063, 1747873779, 1955562222, 2024104815, 2227730452, 2361852424,
   2428436474, 2756734187, 3204031479, 3329325298]

def shaH0 : List Nat :=
  [1779033703, 3144134277, 1013904242, 2773480762,
   1359893119, 2600822924, 528734635, 1541459225]

def bytesToWords : List Nat → List Nat
  | a :: b :: c :: d :: rest => (a * 16777216 + b * 65536 + c * 256 + d) :: bytesToWords rest
  | _ => []

/-- Extend the 16 message-schedule words by `n` further words. -/
def extendW : Nat → List Nat → List Nat
  | 0, ws => ws
  | n + 1, ws =>
    let l := ws.length
    let wi := w32 (smallSigma1 (ws.getD (l - 2) 0) + ws.getD (l - 7) 0 +
      smallSigma0 (ws.getD (l - 15) 0) + ws.getD (l - 16) 0)
    extendW n (ws ++ [wi])

def compressStep (st : List Nat) (kw : Nat × Nat) : List Nat :=
  match st with
  | [a, b, c, d, e, f, g, h] =>
    let t1 := w32 (h + bigSigma1 e + shaCh e f g + kw.1 + kw.2)
    let t2 := w32 (bigSigma0 a + shaMaj a b c)
    [w32 (t1 + t2), a, b, c, w32 (d + t1), e, f, g]
  | other => other

def compressBlock (h : List Nat) (block : List Nat) : List Nat :=
  let ws := extendW 48 (bytesToWords block)
  let st := (shaK.zip ws).foldl compressStep h
  (h.zip st).map fun p => w32 (p.1 + p.2)

def lenBytes8 (n : Nat) : List Nat :=
  [n / 72057594037927936 % 256, n / 281474976710656 % 256, n / 1099511627776 % 256,
   n / 4294967296 % 256, n / 16777216 % 256, n / 65536 % 256, n / 256 % 256, n % 256]

def sha256Pad (msg : List Nat) : List Nat :=
  let l := msg.length
  let zeros := (119 - l % 64) % 64
  msg ++ 128 :: List.replicate zeros 0 ++ lenBytes8 (8 * l)

def toBlocks : Nat → List Nat → List (List Nat)
  | 0, _ => []
  | _ + 1, [] => []
  | f + 1, bs => bs.take 64 :: toBlocks f (bs.drop 64)

def wordToBytes (n : Nat) : List Nat :=
  [n / 16777216 % 256, n / 65536 % 256, n / 256 % 256, n % 256]

def sha256Bytes (msg : List Nat) : List Nat :=
  let padded := sha256Pad msg
  let final := (toBlocks (padded.length + 1) padded).foldl compressBlock shaH0
  (final.map wordToBytes).flatten

def byteToHex (b : Nat) : List Char := [hexDigitChar (b / 16 % 16), hexDigitChar (b % 16)]

def sha256Hex (msg : List Nat) : String :=
  String.mk ((sha256Bytes msg).map byteToHex).flatten

/-! ## `mcp_hydrolix/pagination.py` -/

/-- The whitespace characters removed by Python `str.strip()` (the Unicode
whitespace set: the fixed list of code points below). -/
def pyIsSpace (c : Char) : Bool :=
  (9 ≤ c.toNat && c.toNat ≤ 13) || (28 ≤ c.toNat && c.toNat ≤ 32) ||
    c.toNat = 133 || c.toNat = 160 || c.toNat = 5760 ||
    (8192 ≤ c.toNat && c.toNat ≤ 8202) || c.toNat = 8232 || c.toNat = 8233 ||
    c.toNat = 8239 || c.toNat = 8287 || c.toNat = 12288

/-- Python `str.strip()`. -/
def pyStrip (s : String) : String :=
  String.mk (((s.data.dropWhile pyIsSpace).reverse.dropWhile pyIsSpace).reverse)

/-- `encode_cursor` (pagination.py lines 25-39):
`base64.urlsafe_b64encode(json.dumps(cursor_data, sort_keys=True).encode()).decode()`.
Cursor data is a JSON value in the embedded fragment; Python dicts are
association lists, compared up to key order (see `canon`). -/
def encode_cursor (cursor_data : Json) : String :=
  String.mk (b64Encode (utf8EncodeL (dumps cursor_data)))

/-- `decode_cursor` (pagination.py lines 42-62): base64-decode, UTF-8
decode, then `json.loads`; any failure raises
`ValueError("Invalid cursor format: ...")`.  The error payload carries a
stage marker in place of the Python exception text. -/
def decode_cursor (cursor : String) : Except String Json :=
  match b64Decode cursor.data with
  | none => .error "Invalid cursor format: invalid base64"
  | some bytes =>
    match utf8Decode bytes with
    | none => .error "Invalid cursor format: invalid utf-8"
    | some cs =>
      match loads cs with
      | none => .error "Invalid cursor format: invalid json"
      | some j => .ok j

/-- `hash_query` (pagination.py lines 65-81):
`hashlib.sha256(query.strip().encode()).hexdigest()`. -/
def hash_query (query : String) : String :=
  sha256Hex (utf8EncodeL (pyStrip query).data)

/-- The `ValueError` raised by `validate_cursor_params`, structured: the
offending key, the value recorded in the cursor (`cursor_params.get(key)`,
i.e. null when the key is absent) and the expected value, exactly the three
data interpolated into the Python message
`"Cursor parameter mismatch: {key}={got} (expected {expected})"`. -/
structure ParamMismatch where
  key : String
  got : Json
  expected : Json
deriving DecidableEq, Repr

/-- `cursor_data.get("params", {})`.  Per the `CursorData` TypedDict the
`params` entry, when present, is a dict; a non-dict value there is outside
the shape the tools ever encode (in Python it would fault later with an
`AttributeError`) and is mapped to the empty dict here. -/
def cursorParamsOf (cursor_data : JsonObj) : JsonObj :=
  match cursor_data.get "params" with
  | some (.obj ps) => ps
  | _ => .nil

/-- The loop of `validate_cursor_params`: for each expected key (in dict
insertion order), compare `cursor_params.get(key)` with the expected value;
Python's `None` and JSON `null` are both `Json.null`, so a missing key
reads as `null`. -/
def validateLoop (cursor_params : JsonObj) :
    List (String × Json) → Except ParamMismatch Unit
  | [] => .ok ()
  | (key, expected) :: rest =>
    let got := (cursor_params.get key).getD .null
    if got ≠ expected then .error ⟨key, got, expected⟩
    else validateLoop cursor_params rest

/-- `validate_cursor_params` (pagination.py lines 84-108). -/
def validate_cursor_params (cursor_data : JsonObj) (expected_params : List (String × Json)) :
    Except ParamMismatch Unit :=
  validateLoop (cursorParamsOf cursor_data) expected_params

end Hdx

namespace Hdx

/-! ## Python string helpers used by the server and the tool wrappers -/

def lparenC : Char := Char.ofNat 40

def rparenC : Char := Char.ofNat 41

def underscoreC : Char := Char.ofNat 95

/-- ASCII model of per-character `str.upper()` (full Unicode case mapping is
out of scope; the guards below only compare against ASCII keywords). -/
def pyUpperChar (c : Char) : Char :=
  if 97 ≤ c.toNat ∧ c.toNat ≤ 122 then Char.ofNat (c.toNat - 32) else c

def pyUpper (s : String) : String := String.mk (s.data.map pyUpperChar)

/-- ASCII model of per-character `str.lower()`. -/
def pyLowerChar (c : Char) : Char :=
  if 65 ≤ c.toNat ∧ c.toNat ≤ 90 then Char.ofNat (c.toNat + 32) else c

def pyLower (s : String) : String := String.mk (s.data.map pyLowerChar)

/-- Structural character-list prefix test (`str.startswith`). -/
def isPrefixL (pre s : List Char) : Bool :=
  match pre with
  | [] => true
  | p :: ps =>
    match s with
    | [] => false
    | c :: cs => p = c && isPrefixL ps cs

/-- Python substring test (`sub in s`). -/
def strHasSub (s sub : String) : Bool :=
  s.data.tails.any fun t => isPrefixL sub.data t

/-- ASCII model of `str.isalnum()` on a single character (digits,
uppercase and lowercase ASCII letters). -/
def pyIsAlnumChar (c : Char) : Bool :=
  (48 ≤ c.toNat && c.toNat ≤ 57) || (65 ≤ c.toNat && c.toNat ≤ 90) ||
    (97 ≤ c.toNat && c.toNat ≤ 122)

/-- Python `s.isalnum()`: nonempty and all characters alphanumeric. -/
def pyIsAlnum (s : String) : Bool := !s.data.isEmpty && s.data.all pyIsAlnumChar

/-- `name.replace("_", "").isalnum()` — the identifier validation used by the
agent-layer tools. -/
def validIdentifier (name : String) : Bool :=
  pyIsAlnum (String.mk (name.data.filter fun c => c ≠ underscoreC))

/-! ## Summary-table classification (`mcp_server.py` lines 254-350) -/

/-- Strip a literal prefix, returning the remainder on a match. -/
def stripLit : List Char → List Char → Option (List Char)
  | [], cs => some cs
  | _ :: _, [] => none
  | p :: ps, c :: cs => if c = p then stripLit ps cs else none

/-- `extract_function_from_type` (lines 257-274): match the regex
`^(?:Simple)?AggregateFunction\(([^,()]+(?:\([^)]*\))?)` and return
`group(1).strip()`.  The regex is deterministic: the greedy `[^,()]+` run
never contains a parenthesis, and the optional group `\([^)]*\)` matches
exactly when the run is followed by `(` with a later `)`. -/
def extract_function_from_type (column_type : String) : Option String :=
  let afterHead : Option (List Char) :=
    match stripLit "SimpleAggregateFunction(".data column_type.data with
    | some r => some r
    | none => stripLit "AggregateFunction(".data column_type.data
  match afterHead with
  | none => none
  | some r =>
    let core := r.takeWhile fun c => !(c = commaC || c = lparenC || c = rparenC)
    if core.isEmpty then none
    else
      match r.drop core.length with
      | c :: r3 =>
        if c = lparenC then
          let ps := r3.takeWhile fun c2 => c2 ≠ rparenC
          match r3.drop ps.length with
          | c2 :: _ => some (pyStrip (String.mk (core ++ c :: ps ++ [c2])))
          | [] => some (pyStrip (String.mk core))
        else some (pyStrip (String.mk core))
      | [] => some (pyStrip (String.mk core))

/-- `get_merge_function` (lines 277-295): match `^(\w+)(\(.+\))$`; on a
match return `{func_name}Merge{params}`, otherwise `{base_function}Merge`.
`\w` is modelled on the ASCII range; `.` does not match a newline. -/
def get_merge_function (base_function : String) : String :=
  let cs := base_function.data
  let w := cs.takeWhile fun c => pyIsAlnumChar c || c = underscoreC
  let rest := cs.drop w.length
  let isMatch : Bool :=
    !w.isEmpty &&
      match rest with
      | c0 :: r1 =>
        c0 = lparenC && r1.getLast? = some rparenC && !r1.dropLast.isEmpty &&
          r1.dropLast.all fun c => c ≠ nlC
      | [] => false
  if isMatch then String.mk w ++ "Merge" ++ String.mk rest
  else base_function ++ "Merge"

/-- `Column` (mcp_server.py lines 31-44). -/
structure Column where
  database : String
  table : String
  name : String
  column_type : String
  default_kind : Option String := none
  default_expression : Option String := none
  comment : Option String := none
  column_category : Option String := none
  base_function : Option String := none
  merge_function : Option String := none
deriving DecidableEq, Repr

/-- `TableClassification` (lines 91-98). -/
structure TableClassification where
  is_summary_table : Bool
  aggregate_columns : List Column
  dimension_columns : List Column
deriving DecidableEq, Repr

/-- Python truthiness of an optional string (`None` and `""` are falsy). -/
def pyTruthyStr : Option String → Bool
  | none => false
  | some s => !s.data.isEmpty

/-- `enrich_column_metadata` (lines 319-350). -/
def enrich_column_metadata (column : Column) : Column :=
  let type_func := extract_function_from_type column.column_type
  if pyTruthyStr type_func then
    { column with
        column_category := some "aggregate",
        base_function := type_func,
        merge_function := some (get_merge_function (type_func.getD "")) }
  else if column.default_kind = some "ALIAS" ∧ pyTruthyStr column.default_expression ∧
      strHasSub (column.default_expression.getD "") "Merge(" then
    { column with
        column_category := some "alias_aggregate",
        base_function := none,
        merge_function := none }
  else { column with column_category := some "dimension" }

/-- The aggregate test of the classification loop:
`column.column_category in ("aggregate", "alias_aggregate")`. -/
def isAggCat (c : Column) : Bool :=
  c.column_category = some "aggregate" ∨ c.column_category = some "alias_aggregate"

/-- `classify_table_columns` (lines 298-316): a single pass appending each
column to one of the two lists, i.e. two complementary filters. -/
def classify_table_columns (columns : List Column) : TableClassification :=
  let aggregate_columns := columns.filter isAggCat
  let dimension_columns := columns.filter fun c => !isAggCat c
  { is_summary_table := aggregate_columns.length > 0,
    aggregate_columns := aggregate_columns,
    dimension_columns := dimension_columns }

/-- The metadata query of `_populate_table_metadata` (lines 353-365): the
caller-supplied identifiers are interpolated into backtick quotes with no
validation (`f"DESCRIBE TABLE `{database}`.`{table.name}`"`). -/
def populateMetadataQuery (database tableName : String) : String :=
  "DESCRIBE TABLE `" ++ database ++ "`.`" ++ tableName ++ "`"

/-- The queries `_populate_table_metadata` submits to `execute_query` (each
submission creates a database client); the function has no error path of
its own. -/
def populateMetadataIssuedQueries (database tableName : String) : List String :=
  [populateMetadataQuery database tableName]

end Hdx

namespace Hdx

/-! ## Tool-level pagination (`mcp_server.py` lines 491-616 and 619-928)

The database engine is modelled by the filtered, ordered result set of the
`system.tables` query (`catalog : List String` of table names, in the
engine's stable order): `LIMIT n OFFSET k` over that order is
`(catalog.drop k).take n`.  Page sizes come from the server configuration
(`HYDROLIX_CONFIG.list_tables_page_size` /
`HYDROLIX_CONFIG.query_result_page_size`, default 50 and 10000, with the
`enable_pagination` switch); they are parameters here. -/

/-- Tool-boundary errors (`ToolError`). -/
inductive ToolError where
  | invalidCursor (msg : String)
  | queryFailed (msg : String)
deriving DecidableEq, Repr

def optStrJson : Option String → Json
  | none => .null
  | some s => .str s

/-- The cursor payload `list_tables` encodes for the next page (lines
604-609), keys in Python insertion order. -/
def tableListCursorJson (database : String) (like not_like : Option String)
    (offset : Int) : Json :=
  .obj (.cons "type" (.str "table_list")
    (.cons "offset" (.int offset)
      (.cons "params" (.obj (.cons "database" (.str database)
        (.cons "like" (optStrJson like)
          (.cons "not_like" (optStrJson not_like) .nil)))) .nil)))

/-- The expected-parameters dict `list_tables` validates a cursor against
(line 555-557), in Python insertion order. -/
def tableListExpectedParams (database : String) (like not_like : Option String) :
    List (String × Json) :=
  [("database", .str database), ("like", optStrJson like), ("not_like", optStrJson not_like)]

/-- `cursor_data.get("offset", 0)`.  `CursorData` declares `offset : int`;
a non-int JSON value here is outside the TypedDict shape (Python would
interpolate its `str()` into the SQL text) and is mapped to 0 in the
model — no claim exercises that corner. -/
def cursorOffset (kvs : JsonObj) : Int :=
  match kvs.get "offset" with
  | some (.int n) => n
  | _ => 0

/-- The cursor-decoding prefix of `list_tables` (lines 550-560): decode,
validate the parameters, extract the offset; any failure inside the `try`
block (including the `AttributeError` a non-dict cursor raises) becomes
`ToolError("Invalid cursor: ...")`. -/
def listTablesCursorStep (database : String) (like not_like : Option String)
    (cursor : String) : Except ToolError Int :=
  match decode_cursor cursor with
  | .error e => .error (.invalidCursor e)
  | .ok (.obj kvs) =>
    match validate_cursor_params kvs (tableListExpectedParams database like not_like) with
    | .error m =>
      .error (.invalidCursor ("Cursor parameter mismatch: " ++ m.key))
    | .ok _ => .ok (cursorOffset kvs)
  | .ok _ => .error (.invalidCursor "AttributeError")

/-- Result of `list_tables`: the legacy unpaginated list, or the
`PaginatedTableList` shape (tables, nextCursor, pageSize, totalRetrieved). -/
inductive ListTablesResult where
  | legacy (tables : List String)
  | paged (tables : List String) (nextCursor : Option String) (pageSize : Nat)
      (totalRetrieved : Int)
deriving DecidableEq, Repr

/-- `list_tables` (lines 491-616) over the modelled engine. -/
def list_tables (page_size : Nat) (enable_pagination paginate : Bool)
    (catalog : List String) (database : String) (like not_like : Option String)
    (cursor : Option String) : Except ToolError ListTablesResult :=
  let offsetStep : Except ToolError Int :=
    match cursor with
    | none => .ok 0
    | some c => listTablesCursorStep database like not_like c
  match offsetStep with
  | .error e => .error e
  | .ok offset =>
    let fetched :=
      if paginate ∧ enable_pagination then (catalog.drop offset.toNat).take (page_size + 1)
      else catalog
    let has_more :=
      (paginate ∧ enable_pagination) ∧ fetched.length > page_size
    let tables := if has_more then fetched.take page_size else fetched
    if ¬(paginate ∧ enable_pagination) then .ok (.legacy tables)
    else
      let next_cursor :=
        if has_more then
          some (encode_cursor (tableListCursorJson database like not_like (offset + page_size)))
        else none
      .ok (.paged tables next_cursor tables.length (offset + tables.length))

/-- Follow `list_tables` pages from a starting cursor, collecting each
page's `(tables, nextCursor)` until no cursor is returned (`fuel` bounds
the number of pages). -/
def followTablePages (page_size : Nat) (catalog : List String) (database : String)
    (like not_like : Option String) : Nat → Option String →
    List (List String × Option String)
  | 0, _ => []
  | fuel + 1, cursor =>
    match list_tables page_size true true catalog database like not_like cursor with
    | .error _ => []
    | .ok (.legacy _) => []
    | .ok (.paged tables next _ _) =>
      (tables, next) ::
        match next with
        | none => []
        | some c => followTablePages page_size catalog database like not_like fuel (some c)

/-- `_add_pagination_to_query` (lines 619-640). -/
def rstripSemis (s : String) : String :=
  String.mk (s.data.reverse.dropWhile (fun c => c = Char.ofNat 59)).reverse

def add_pagination_to_query (query : String) (limit : Nat) (offset : Int) : String :=
  let q := rstripSemis (pyStrip query)
  if strHasSub (pyUpper q) "LIMIT" ∨ strHasSub (pyUpper q) "OFFSET" then
    "SELECT * FROM (" ++ q ++ ") AS paginated_subquery LIMIT " ++ toString limit ++
      " OFFSET " ++ toString offset
  else q ++ " LIMIT " ++ toString limit ++ " OFFSET " ++ toString offset

/-- The body of `run_select_query`'s cursor `try` block after decoding
(lines 873-878): compare the recorded `query_hash` with the hash of the
current query text, then extract the offset. -/
def runSelectCursorStep (query : String) (cursor_data : Json) : Except ToolError Int :=
  match cursor_data with
  | .obj kvs =>
    if kvs.get "query_hash" ≠ some (.str (hash_query query)) then
      .error (.invalidCursor "Query has changed since cursor was generated")
    else .ok (cursorOffset kvs)
  | _ => .error (.invalidCursor "AttributeError")

/-- The cursor-handling and query-construction prefix of `run_select_query`
(lines 864-890): everything up to the call of `execute_query`, which is
the point where a database client connection is created.  Returns the
offset and the exact query string submitted to the engine.  Note there is
no SELECT/WITH guard on this path: every query text reaches
`execute_query`. -/
def runSelectQueryPrep (page_size : Nat) (enable_pagination paginate : Bool)
    (query : String) (cursor : Option String) : Except ToolError (Int × String) :=
  let offsetStep : Except ToolError Int :=
    match cursor with
    | none => .ok 0
    | some c =>
      match decode_cursor c with
      | .error e => .error (.invalidCursor e)
      | .ok j => runSelectCursorStep query j
  match offsetStep with
  | .error e => .error e
  | .ok offset =>
    let paginated_query :=
      if paginate ∧ enable_pagination then add_pagination_to_query query (page_size + 1) offset
      else query
    .ok (offset, paginated_query)

end Hdx

namespace Hdx

/-! ## Authentication chain (`mcp_hydrolix/auth/mcp_providers.py`) -/

/-- The parts of an inbound HTTP request the backends consult: the
`Authorization` header and the query parameters. -/
structure HttpRequest where
  authorization : Option String
  queryParams : List (String × String)
deriving DecidableEq, Repr

/-- The verified token data the backends work with (the fields of
`AccessToken` the chain reads: token, scopes, expiry). -/
structure AccessTokenM where
  token : String
  scopes : List String
  expiresAt : Option Nat
deriving DecidableEq, Repr

/-- A successful authentication: `(AuthCredentials(scopes),
AuthenticatedUser(auth_info))`, represented by the scopes and the
underlying token. -/
structure AuthOutcome where
  scopes : List String
  token : String
deriving DecidableEq, Repr

/-- `HydrolixCredentialChain.verify_token` (lines 105-119): wraps any token
into a `ServiceAccountAccess` with the fake scope and no expiry — it never
rejects. -/
def HydrolixCredentialChain.verify_token (token : String) : Option AccessTokenM :=
  some { token := token, scopes := ["MCP_SERVICE_ACCOUNT_SCOPE"], expiresAt := none }

/-- The expiry treatment shared by the backends:
`if auth_info.expires_at and auth_info.expires_at < int(time.time())`
(note `0` is falsy, hence never treated as expired). -/
def expiredToken (now : Nat) (info : AccessTokenM) : Bool :=
  match info.expiresAt with
  | some e => e ≠ 0 ∧ e < now
  | none => false

def lookupParam (ps : List (String × String)) (k : String) : Option String :=
  (ps.find? fun p => p.1 = k).map fun p => p.2

/-- `GetParamAuthBackend.authenticate` (lines 45-69): read the token from
the named GET parameter, verify it, treat an expired token as absence. -/
def getParamAuthenticate (verify : String → Option AccessTokenM)
    (token_get_param : String) (now : Nat) (req : HttpRequest) : Option AuthOutcome :=
  match lookupParam req.queryParams token_get_param with
  | none => none
  | some token =>
    match verify token with
    | none => none
    | some info =>
      if expiredToken now info then none
      else some { scopes := info.scopes, token := info.token }

/-- The MCP library's `BearerAuthBackend` (an external dependency, not part
of this repository): extract the token from an
`Authorization: Bearer <token>` header (case-insensitive scheme), verify
it, treat an expired token as absence.  Modelled from the library's
behaviour, which the spec describes as "a verifier applied to a token
carried as a Bearer authorization header". -/
def bearerAuthenticate (verify : String → Option AccessTokenM) (now : Nat)
    (req : HttpRequest) : Option AuthOutcome :=
  match req.authorization with
  | none => none
  | some header =>
    if isPrefixL "bearer ".data (pyLower header).data then
      match verify (String.mk (header.data.drop 7)) with
      | none => none
      | some info =>
        if expiredToken now info then none
        else some { scopes := info.scopes, token := info.token }
    else none

/-- `ChainedAuthBackend.authenticate` (lines 24-42): the first backend to
return a non-`None` result wins. -/
def chainedAuthenticate (backends : List (HttpRequest → Option AuthOutcome))
    (req : HttpRequest) : Option AuthOutcome :=
  match backends with
  | [] => none
  | b :: rest =>
    match b req with
    | some r => some r
    | none => chainedAuthenticate rest req

/-- Instrumented variant recording how many backends were invoked: the
generator in `authenticate` runs backends lazily in order and `anext` stops
at the first yielded result, so a backend is invoked exactly when every
earlier backend returned `None`. -/
def chainedAuthenticateTrace (backends : List (HttpRequest → Option AuthOutcome))
    (req : HttpRequest) : Option AuthOutcome × Nat :=
  match backends with
  | [] => (none, 0)
  | b :: rest =>
    match b req with
    | some r => (some r, 1)
    | none =>
      let (res, n) := chainedAuthenticateTrace rest req
      (res, n + 1)

/-- The backend list built by `HydrolixCredentialChain.get_middleware`
(lines 121-133): `[BearerAuthBackend(self), GetParamAuthBackend(self,
"token")]` — the Bearer-header backend FIRST, then the GET-parameter
backend, and no separate OAuth entry. -/
def getMiddlewareBackends (now : Nat) : List (HttpRequest → Option AuthOutcome) :=
  [bearerAuthenticate HydrolixCredentialChain.verify_token now,
   getParamAuthenticate HydrolixCredentialChain.verify_token "token" now]

/-- The backend order asserted by the claim and by the class's own
docstring (lines 77-84): "MCP-standard oAuth (not implemented!)", then the
`token` GET parameter, then the Bearer token.  Stated from the spec's words
for comparison with `getMiddlewareBackends`; the unimplemented OAuth hook
yields nothing. -/
def claimedOrderBackends (now : Nat) : List (HttpRequest → Option AuthOutcome) :=
  [fun _ => none,
   getParamAuthenticate HydrolixCredentialChain.verify_token "token" now,
   bearerAuthenticate HydrolixCredentialChain.verify_token now]

/-! ## Agent-layer tool wrappers -/

/-- Result of the wrapper `run_select_query`
(`tools/mcp_hydrolix2.py` lines 248-282): either the `{"error": ...}` dict
returned before any client or connection is touched, or the query forwarded
to the MCP server via `call_tool`. -/
inductive WrapperResult where
  | errorResult (msg : String)
  | forwarded (query : String)
deriving DecidableEq, Repr

/-- The wrapper `run_select_query` guard:
`sql_upper = query.strip().upper()`;
`if not sql_upper.startswith(("SELECT", "WITH")): return {"error": ...}`;
otherwise the query is forwarded unchanged. -/
def wrapperRunSelectQuery (query : String) : WrapperResult :=
  let sql_upper := pyUpper (pyStrip query)
  if isPrefixL "SELECT".data sql_upper.data ∨ isPrefixL "WITH".data sql_upper.data then
    .forwarded query
  else
    .errorResult "Only SELECT queries are allowed for safety. Use WITH...SELECT for CTEs."

/-- Result of the agent-layer `describe_table`
(`tools/clickhouse.py` lines 68-111, same validation in
`tools/mcp_hydrolix2.py` lines 186-244): either the `{"error": ...}` dict
returned before any query text is built, or the two queries issued for the
table, in order.  (In `clickhouse.py` the client object is created before
the validation, but no query is issued before it.) -/
inductive DescribeResult where
  | errorResult (msg : String)
  | queries (qs : List String)
deriving DecidableEq, Repr

/-- Agent-layer `describe_table`: validate both identifiers with
`name.replace("_", "").isalnum()`, then interpolate them into the
backtick-quoted query texts. -/
def describe_table (database table : String) : DescribeResult :=
  if ¬validIdentifier database then .errorResult ("Invalid database name: " ++ database)
  else if ¬validIdentifier table then .errorResult ("Invalid table name: " ++ table)
  else
    .queries ["DESCRIBE TABLE `" ++ database ++ "`.`" ++ table ++ "`",
      "SELECT count() FROM `" ++ database ++ "`.`" ++ table ++ "`"]

end Hdx

namespace Hdx

/-- Decidable equality for `Except`, used to evaluate the embeddings at
concrete inputs. -/
def exceptToSum {ε α : Type} : Except ε α → ε ⊕ α
  | .error e => .inl e
  | .ok a => .inr a

instance {ε α : Type} [DecidableEq ε] [DecidableEq α] : DecidableEq (Except ε α) :=
  fun a b =>
    decidable_of_iff (exceptToSum a = exceptToSum b)
      (by cases a <;> cases b <;> simp [exceptToSum])

end Hdx

namespace Hdx

/-! ## Claim theorems -/

/-- Auxiliary: complementary filters split every element's multiplicity. -/
theorem count_filter_split {α : Type} [DecidableEq α] (p : α → Bool) (l : List α) (c : α) :
    (l.filter p).count c + (l.filter fun x => !p x).count c = l.count c := by
  have h := (List.filter_append_perm p l).count_eq c
  simpa [List.count_append] using h

/-- C8: for every sequence of enriched columns, the aggregate and dimension
sub-sequences of `classify_table_columns` partition the input — every
occurrence of a column lands in exactly one of the two lists and no column
value is in both — and `is_summary_table` holds iff some column classifies
as `aggregate` or `alias_aggregate`. -/
theorem claim_C8_classification_partition (columns : List Column) :
    (∀ c : Column,
      (classify_table_columns columns).aggregate_columns.count c +
        (classify_table_columns columns).dimension_columns.count c = columns.count c) ∧
    (∀ c : Column, ¬(c ∈ (classify_table_columns columns).aggregate_columns ∧
      c ∈ (classify_table_columns columns).dimension_columns)) ∧
    ((classify_table_columns columns).is_summary_table = true ↔
      ∃ c ∈ columns, isAggCat c = true) := by
  refine ⟨fun c => count_filter_split isAggCat columns c, fun c h => ?_, ?_⟩
  · rcases h with ⟨h1, h2⟩
    simp only [classify_table_columns, List.mem_filter] at h1 h2
    rw [h1.2] at h2
    simp at h2
  · simp only [classify_table_columns, gt_iff_lt, decide_eq_true_eq,
      List.length_pos_iff_ne_nil, ne_eq]
    constructor
    · intro h
      rcases List.exists_mem_of_ne_nil _ h with ⟨c, hc⟩
      rw [List.mem_filter] at hc
      exact ⟨c, hc.1, hc.2⟩
    · rintro ⟨c, hc, hagg⟩ hnil
      have : c ∈ columns.filter isAggCat := List.mem_filter.mpr ⟨hc, hagg⟩
      simp [hnil] at this

/-- The request of C3's failing input: a bearer token in the
`Authorization` header and a different token in the `token` query
parameter. -/
def c3Request : HttpRequest :=
  { authorization := some "Bearer tokenA", queryParams := [("token", "tokenB")] }

/-- C3: on a request carrying both a Bearer-header token (`tokenA`) and a
`token` query parameter (`tokenB`), the backend chain built by
`get_middleware` resolves the BEARER token after invoking exactly one
backend — the list is `[BearerAuthBackend, GetParamAuthBackend]` — whereas
the order asserted by the claim (and by the class's own docstring: OAuth
hook, then query parameter, then Bearer) would resolve the query-parameter
token.  The code therefore contradicts its documented precedence. -/
theorem claim_C3_chain_order_bug :
    chainedAuthenticate (getMiddlewareBackends 1000) c3Request =
      some { scopes := ["MCP_SERVICE_ACCOUNT_SCOPE"], token := "tokenA" } ∧
    chainedAuthenticateTrace (getMiddlewareBackends 1000) c3Request =
      (some { scopes := ["MCP_SERVICE_ACCOUNT_SCOPE"], token := "tokenA" }, 1) ∧
    chainedAuthenticate (claimedOrderBackends 1000) c3Request =
      some { scopes := ["MCP_SERVICE_ACCOUNT_SCOPE"], token := "tokenB" } := by
  decide

/-- C2 counterexample: `_populate_table_metadata` (reached by
`get_table_info` and `list_tables` column enrichment) interpolates the
unsafe identifier `"a; DROP TABLE x"` straight into the backtick-quoted
DESCRIBE query and submits it — it does not fail with
`InvalidIdentifierError` (the function has no identifier-validation path at
all). -/
theorem claim_C2_counterexample :
    populateMetadataIssuedQueries "a; DROP TABLE x" "t" =
      ["DESCRIBE TABLE `a; DROP TABLE x`.`t`"] := by
  decide

/-- C2 (amended): the agent-layer `describe_table` validates both
identifiers with `name.replace("_", "").isalnum()` — exactly
"alphanumeric-plus-underscore, with at least one alphanumeric character" —
and returns an invalid-identifier error before building any query text;
the gateway's `_populate_table_metadata`, by contrast, interpolates the
identifiers into the DESCRIBE query with no validation. -/
theorem claim_C2_identifier_validation :
    (∀ database table : String, validIdentifier database = false →
      describe_table database table = .errorResult ("Invalid database name: " ++ database)) ∧
    (∀ database table : String, validIdentifier database = true → validIdentifier table = false →
      describe_table database table = .errorResult ("Invalid table name: " ++ table)) ∧
    (∀ name : String, validIdentifier name = true ↔
      ((∃ c ∈ name.data, pyIsAlnumChar c = true) ∧
        ∀ c ∈ name.data, pyIsAlnumChar c = true ∨ c = underscoreC)) ∧
    (∀ database table : String, populateMetadataIssuedQueries database table =
      ["DESCRIBE TABLE `" ++ database ++ "`.`" ++ table ++ "`"]) := by
  refine ⟨fun db t h => by simp [describe_table, h],
    fun db t h1 h2 => by simp [describe_table, h1, h2],
    fun name => ?_, fun db t => rfl⟩
  have hdata : (String.mk (name.data.filter fun c => c ≠ underscoreC)).data =
      name.data.filter fun c => c ≠ underscoreC := rfl
  rw [validIdentifier, pyIsAlnum, hdata, Bool.and_eq_true, Bool.not_eq_true',
    List.isEmpty_eq_false, List.all_eq_true]
  constructor
  · rintro ⟨hne, hall⟩
    rcases List.exists_mem_of_ne_nil _ hne with ⟨c, hc⟩
    have hc' := List.mem_filter.mp hc
    refine ⟨⟨c, hc'.1, hall c hc⟩, fun c2 hc2 => ?_⟩
    by_cases hu : c2 = underscoreC
    · exact Or.inr hu
    · exact Or.inl (hall c2 (List.mem_filter.mpr ⟨hc2, by simpa using hu⟩))
  · rintro ⟨⟨c, hc, halnum⟩, hall⟩
    constructor
    · intro hnil
      have hmem : c ∈ name.data.filter fun c => c ≠ underscoreC := by
        refine List.mem_filter.mpr ⟨hc, ?_⟩
        simp only [ne_eq, decide_eq_true_eq]
        intro he
        rw [he] at halnum
        exact absurd halnum (by decide)
      rw [hnil] at hmem
      simp at hmem
    · intro c2 hc2
      have hc2' := List.mem_filter.mp hc2
      rcases hall c2 hc2'.1 with h | h
      · exact h
      · exact absurd h (by simpa using hc2'.2)

end Hdx

namespace Hdx

/-- C2 witness: the amended validation facts at the claim's concrete
input. -/
theorem claim_C2_identifier_validation_witness :
    describe_table "a; DROP TABLE x" "t" =
      .errorResult "Invalid database name: a; DROP TABLE x" := by
  have h := (claim_C2_identifier_validation).1 "a; DROP TABLE x" "t" (by decide)
  simpa using h

/-- C1 counterexample: the server-side `run_select_query` has no
SELECT/WITH guard — called with `"DELETE FROM t"` and no cursor it
proceeds to submit the (pagination-wrapped) statement to `execute_query`,
which opens a database connection, instead of failing with
`UnsafeQueryError` beforehand.  (Page size 10000 is the documented
`query_result_page_size` default.) -/
theorem claim_C1_counterexample :
    runSelectQueryPrep 10000 true true "DELETE FROM t" none =
      .ok (0, "DELETE FROM t LIMIT 10001 OFFSET 0") := by
  decide

/-- C1 (amended): the SELECT/WITH precondition lives in the agent-layer
wrapper, not in the server tool.  First conjunct: the server-side
`run_select_query` forwards every cursorless query to `execute_query`
(offset 0, pagination applied) without any guard.  Second conjunct: the
wrapper `run_select_query` returns the safety error — before any client or
connection is touched — exactly when the trimmed query does not start
(ASCII case-insensitively) with `SELECT` or `WITH`. -/
theorem claim_C1_select_guard :
    (∀ (page_size : Nat) (query : String),
      runSelectQueryPrep page_size true true query none =
        .ok (0, add_pagination_to_query query (page_size + 1) 0)) ∧
    (∀ query : String,
      isPrefixL "SELECT".data (pyUpper (pyStrip query)).data = false →
      isPrefixL "WITH".data (pyUpper (pyStrip query)).data = false →
      wrapperRunSelectQuery query =
        .errorResult "Only SELECT queries are allowed for safety. Use WITH...SELECT for CTEs.") := by
  constructor
  · intro page_size query
    rfl
  · intro query h1 h2
    simp [wrapperRunSelectQuery, h1, h2]

/-- C1 witness: the amended statement applied at `"DELETE FROM t"`. -/
theorem claim_C1_select_guard_witness :
    runSelectQueryPrep 10000 true true "DELETE FROM t" none =
      .ok (0, add_pagination_to_query "DELETE FROM t" 10001 0) ∧
    wrapperRunSelectQuery "DELETE FROM t" =
      .errorResult "Only SELECT queries are allowed for safety. Use WITH...SELECT for CTEs." :=
  ⟨claim_C1_select_guard.1 10000 "DELETE FROM t",
   claim_C1_select_guard.2 "DELETE FROM t" (by decide) (by decide)⟩

/-- Auxiliary characterization of the `validate_cursor_params` loop. -/
theorem validateLoop_ok_iff (ps : JsonObj) (expected : List (String × Json)) :
    (validateLoop ps expected = .ok () ↔
      ∀ kv ∈ expected, (ps.get kv.1).getD Json.null = kv.2) ∧
    (∀ e : ParamMismatch, validateLoop ps expected = .error e →
      (e.key, e.expected) ∈ expected ∧
      e.got = (ps.get e.key).getD Json.null ∧ e.got ≠ e.expected) := by
  induction expected with
  | nil => simp [validateLoop]
  | cons kv rest ih =>
    rcases kv with ⟨key, expectedVal⟩
    by_cases h : (ps.get key).getD Json.null = expectedVal
    · constructor
      · rw [List.forall_mem_cons]
        constructor
        · intro hok
          refine ⟨h, ih.1.mp ?_⟩
          rw [validateLoop, if_neg (by simpa using h)] at hok
          exact hok
        · rintro ⟨-, hrest⟩
          rw [validateLoop, if_neg (by simpa using h)]
          exact ih.1.mpr hrest
      · intro e herr
        rw [validateLoop, if_neg (by simpa using h)] at herr
        rcases ih.2 e herr with ⟨hmem, hgot, hne⟩
        exact ⟨List.mem_cons_of_mem _ hmem, hgot, hne⟩
    · have herr : validateLoop ps ((key, expectedVal) :: rest) =
          .error ⟨key, (ps.get key).getD Json.null, expectedVal⟩ := by
        rw [validateLoop, if_pos (by simpa using h)]
      constructor
      · rw [herr]
        simp only [List.forall_mem_cons]
        constructor
        · intro hok
          cases hok
        · rintro ⟨hkv, -⟩
          exact absurd hkv h
      · intro e he
        rw [herr] at he
        cases he
        exact ⟨List.mem_cons_self _ _, rfl, h⟩

/-- C4 counterexample: a key that is entirely missing from the cursor's
`params` does NOT always fail validation — with expected value `None` the
lookup default makes the comparison succeed, so
`validate_cursor_params({"params": {}}, {"like": None})` passes, where the
claim requires a `CursorParameterMismatchError`. -/
theorem claim_C4_counterexample :
    validate_cursor_params (.cons "params" (.obj .nil) .nil) [("like", Json.null)] =
      .ok () := by
  decide

/-- C4 (amended): `validate_cursor_params` reads a missing key as `None`:
it succeeds iff every expected key's recorded-or-`None` cursor value equals
the expected value (exact comparison, including `None`), and on failure the
error names the first offending key together with the recorded value and
the expected value.  A missing key therefore mismatches every non-`None`
expected value but matches an expected `None`. -/
theorem claim_C4_validate_params (cursor_data : JsonObj)
    (expected : List (String × Json)) :
    (validate_cursor_params cursor_data expected = .ok () ↔
      ∀ kv ∈ expected,
        ((cursorParamsOf cursor_data).get kv.1).getD Json.null = kv.2) ∧
    (∀ e : ParamMismatch, validate_cursor_params cursor_data expected = .error e →
      (e.key, e.expected) ∈ expected ∧
      e.got = ((cursorParamsOf cursor_data).get e.key).getD Json.null ∧
      e.got ≠ e.expected) :=
  validateLoop_ok_iff (cursorParamsOf cursor_data) expected

/-- C4 witness: the amended statement at the spec's tamper-resistance
example — a cursor minted with `params={database:"a"}` validated against
`{database:"b"}` fails naming the key and both values. -/
theorem claim_C4_validate_params_witness :
    (("database", Json.str "b") ∈ [("database", Json.str "b")]) ∧
    Json.str "a" =
      ((cursorParamsOf (.cons "params" (.obj (.cons "database" (.str "a") .nil)) .nil)).get
        "database").getD Json.null ∧
    Json.str "a" ≠ Json.str "b" :=
  (claim_C4_validate_params
      (.cons "params" (.obj (.cons "database" (.str "a") .nil)) .nil)
      [("database", Json.str "b")]).2
    ⟨"database", Json.str "a", Json.str "b"⟩ (by decide)

end Hdx

namespace Hdx

/-! ### C7: merge-function formation -/

theorem takeWhile_append_all {p : Char → Bool} (l1 l2 : List Char)
    (h : ∀ c ∈ l1, p c = true) :
    (l1 ++ l2).takeWhile p = l1 ++ l2.takeWhile p := by
  induction l1 with
  | nil => simp
  | cons c cs ih =>
    simp only [List.cons_append, List.takeWhile_cons, h c (by simp)]
    simp [ih fun c2 hc2 => h c2 (by simp [hc2])]

theorem stripLit_self (ps cs : List Char) : stripLit ps (ps ++ cs) = some cs := by
  induction ps with
  | nil => rfl
  | cons p ps ih => simp [stripLit, ih]

/-- A word character (`\w`, ASCII model) is in the alphanumeric or
underscore code-point ranges. -/
theorem wordChar_ranges {c : Char} (h : (pyIsAlnumChar c || c = underscoreC) = true) :
    (48 ≤ c.toNat ∧ c.toNat ≤ 57) ∨ (65 ≤ c.toNat ∧ c.toNat ≤ 90) ∨
      (97 ≤ c.toNat ∧ c.toNat ≤ 122) ∨ c.toNat = 95 := by
  simp only [pyIsAlnumChar, Bool.or_eq_true, Bool.and_eq_true, decide_eq_true_eq] at h
  rcases h with ((h | h) | h) | h
  · exact Or.inl h
  · exact Or.inr (Or.inl h)
  · exact Or.inr (Or.inr (Or.inl h))
  · rw [h]
    exact Or.inr (Or.inr (Or.inr rfl))

theorem wordChar_not_special {c : Char} (h : (pyIsAlnumChar c || c = underscoreC) = true) :
    (!(c = commaC || c = lparenC || c = rparenC)) = true := by
  rcases wordChar_ranges h with h2 | h2 | h2 | h2 <;>
  · simp only [Bool.not_eq_true', Bool.or_eq_false_iff, decide_eq_false_iff_not]
    refine ⟨⟨fun he => ?_, fun he => ?_⟩, fun he => ?_⟩ <;> rw [he] at h2 <;>
      revert h2 <;> decide

theorem wordChar_not_space {c : Char} (h : (pyIsAlnumChar c || c = underscoreC) = true) :
    pyIsSpace c = false := by
  rcases wordChar_ranges h with h2 | h2 | h2 | h2 <;>
  · simp only [pyIsSpace, Bool.or_eq_false_iff, Bool.and_eq_false_iff,
      decide_eq_false_iff_not]
    omega

theorem pyStrip_nospace (l : List Char) (h : ∀ c ∈ l, pyIsSpace c = false) :
    pyStrip (String.mk l) = String.mk l := by
  have h1 : l.dropWhile pyIsSpace = l := by
    cases l with
    | nil => rfl
    | cons c cs => rw [List.dropWhile_cons_of_neg (by simp [h c (by simp)])]
  have h2 : l.reverse.dropWhile pyIsSpace = l.reverse := by
    cases hr : l.reverse with
    | nil => rfl
    | cons c cs =>
      rw [List.dropWhile_cons_of_neg]
      have : c ∈ l := by
        rw [← List.mem_reverse, hr]
        simp
      simp [h c this]
  simp only [pyStrip]
  show String.mk (((l.dropWhile pyIsSpace).reverse.dropWhile pyIsSpace).reverse) = String.mk l
  rw [h1, h2, List.reverse_reverse]

theorem merge_unparam (fname : String)
    (hw : ∀ c ∈ fname.data, (pyIsAlnumChar c || c = underscoreC) = true) :
    get_merge_function fname = fname ++ "Merge" := by
  have ht : fname.data.takeWhile (fun c => pyIsAlnumChar c || c = underscoreC) = fname.data := by
    have := takeWhile_append_all (p := fun c => pyIsAlnumChar c || c = underscoreC)
      fname.data [] hw
    simpa using this
  unfold get_merge_function
  simp only [ht, List.drop_length]
  simp

theorem merge_param (fname params : String)
    (hfne : fname.data ≠ [])
    (hw : ∀ c ∈ fname.data, (pyIsAlnumChar c || c = underscoreC) = true)
    (hpne : params.data ≠ [])
    (hp : ∀ c ∈ params.data, c ≠ rparenC ∧ c ≠ nlC) :
    get_merge_function (fname ++ "(" ++ params ++ ")") =
      fname ++ "Merge(" ++ params ++ ")" := by
  have hdata : (fname ++ "(" ++ params ++ ")").data =
      fname.data ++ lparenC :: (params.data ++ [rparenC]) := by
    rw [String.data_append, String.data_append, String.data_append]
    show fname.data ++ [lparenC] ++ params.data ++ [rparenC] =
      fname.data ++ lparenC :: (params.data ++ [rparenC])
    simp
  have hlp : ((lparenC :: (params.data ++ [rparenC])).takeWhile
      fun c => pyIsAlnumChar c || c = underscoreC) = [] := by
    rw [List.takeWhile_cons_of_neg]
    decide
  have hgl : (params.data ++ [rparenC]).getLast? = some rparenC := by
    simp
  have hdl : (params.data ++ [rparenC]).dropLast = params.data := by
    simp
  have hall : (params.data.all fun c => c ≠ nlC) = true := by
    rw [List.all_eq_true]
    intro c hc
    simp [(hp c hc).2]
  have hfalse : fname.data.isEmpty = false := List.isEmpty_eq_false.mpr hfne
  have hpfalse : params.data.isEmpty = false := List.isEmpty_eq_false.mpr hpne
  unfold get_merge_function
  simp only [hdata]
  rw [takeWhile_append_all _ _ hw, hlp, List.append_nil, List.drop_left]
  simp only [hgl, hdl, hall, hfalse, hpfalse, Bool.not_false, Bool.true_and,
    Option.some.injEq, Bool.and_true]
  rw [if_pos (by simp)]
  apply String.ext
  show (String.mk fname.data).data ++ ("Merge").data ++
      (String.mk (lparenC :: (params.data ++ [rparenC]))).data =
    fname.data ++ ("Merge(").data ++ params.data ++ (")").data
  show fname.data ++ ("Merge").data ++ (lparenC :: (params.data ++ [rparenC])) =
    fname.data ++ ("Merge(").data ++ params.data ++ (")").data
  simp
  decide

end Hdx

namespace Hdx

theorem stripSimple_plain (tail : List Char) :
    stripLit ("SimpleAggregateFunction(" : String).data
      (("AggregateFunction(" : String).data ++ tail) = none := by
  show stripLit ('S' :: ("impleAggregateFunction(" : String).data)
    ('A' :: (("ggregateFunction(" : String).data ++ tail)) = none
  simp [stripLit]

/-- `str.strip()` is the identity when neither end is whitespace. -/
theorem pyStrip_ends (l : List Char)
    (h1 : ∀ c, l.head? = some c → pyIsSpace c = false)
    (h2 : ∀ c, l.getLast? = some c → pyIsSpace c = false) :
    pyStrip (String.mk l) = String.mk l := by
  have hd : l.dropWhile pyIsSpace = l := by
    cases l with
    | nil => rfl
    | cons c cs => rw [List.dropWhile_cons_of_neg (by simp [h1 c rfl])]
  have hr : l.reverse.dropWhile pyIsSpace = l.reverse := by
    cases hrev : l.reverse with
    | nil => rfl
    | cons c cs =>
      rw [List.dropWhile_cons_of_neg]
      have : l.getLast? = some c := by
        rw [List.getLast?_eq_head?_reverse, hrev]
        rfl
      simp [h2 c this]
  simp only [pyStrip]
  show String.mk (((l.dropWhile pyIsSpace).reverse.dropWhile pyIsSpace).reverse) = String.mk l
  rw [hd, hr, List.reverse_reverse]

theorem extract_unparam (head fname rest : String)
    (hhead : head = "AggregateFunction(" ∨ head = "SimpleAggregateFunction(")
    (hfne : fname.data ≠ [])
    (hw : ∀ c ∈ fname.data, (pyIsAlnumChar c || c = underscoreC) = true) :
    extract_function_from_type (head ++ (fname ++ ("," ++ rest))) = some fname := by
  have hdata : (head ++ (fname ++ ("," ++ rest))).data =
      head.data ++ (fname.data ++ commaC :: rest.data) := by
    rw [String.data_append, String.data_append, String.data_append]
    show head.data ++ (fname.data ++ ([commaC] ++ rest.data)) =
      head.data ++ (fname.data ++ commaC :: rest.data)
    simp
  have hafter :
      (match stripLit ("SimpleAggregateFunction(" : String).data
          (head.data ++ (fname.data ++ commaC :: rest.data)) with
        | some r => some r
        | none => stripLit ("AggregateFunction(" : String).data
            (head.data ++ (fname.data ++ commaC :: rest.data))) =
        some (fname.data ++ commaC :: rest.data) := by
    rcases hhead with h | h <;> subst h
    · rw [stripSimple_plain, stripLit_self]
    · rw [stripLit_self]
  have hcore : ((fname.data ++ commaC :: rest.data).takeWhile
      fun c => !(c = commaC || c = lparenC || c = rparenC)) = fname.data := by
    rw [takeWhile_append_all _ _ fun c hc => wordChar_not_special (hw c hc)]
    rw [List.takeWhile_cons_of_neg (by simp)]
    simp
  unfold extract_function_from_type
  simp only [hdata, hafter, hcore]
  rw [List.isEmpty_eq_false.mpr hfne, List.drop_left]
  have hfalse : (false = true) = False := by simp
  have hcomma : (commaC = lparenC) = False := eq_false (by decide)
  simp only [hfalse, if_false, hcomma]
  rw [pyStrip_ends]
  · intro c hc
    cases hl : fname.data with
    | nil => exact absurd hl hfne
    | cons a as =>
      rw [hl] at hc
      cases hc
      apply wordChar_not_space
      apply hw
      rw [hl]
      simp
  · intro c hc
    have : c ∈ fname.data := List.mem_of_getLast?_eq_some hc
    exact wordChar_not_space (hw c this)

end Hdx

namespace Hdx

theorem extract_param (head fname params rest : String)
    (hhead : head = "AggregateFunction(" ∨ head = "SimpleAggregateFunction(")
    (hfne : fname.data ≠ [])
    (hw : ∀ c ∈ fname.data, (pyIsAlnumChar c || c = underscoreC) = true)
    (hp : ∀ c ∈ params.data, c ≠ rparenC ∧ c ≠ nlC) :
    extract_function_from_type (head ++ (fname ++ ("(" ++ (params ++ (")" ++ rest))))) =
      some (fname ++ "(" ++ params ++ ")") := by
  have hdata : (head ++ (fname ++ ("(" ++ (params ++ (")" ++ rest))))).data =
      head.data ++ (fname.data ++ lparenC :: (params.data ++ rparenC :: rest.data)) := by
    rw [String.data_append, String.data_append, String.data_append, String.data_append,
      String.data_append]
    show head.data ++ (fname.data ++ ([lparenC] ++ (params.data ++ ([rparenC] ++ rest.data)))) =
      head.data ++ (fname.data ++ lparenC :: (params.data ++ rparenC :: rest.data))
    simp
  have hafter :
      (match stripLit ("SimpleAggregateFunction(" : String).data
          (head.data ++ (fname.data ++ lparenC :: (params.data ++ rparenC :: rest.data))) with
        | some r => some r
        | none => stripLit ("AggregateFunction(" : String).data
            (head.data ++ (fname.data ++ lparenC :: (params.data ++ rparenC :: rest.data)))) =
        some (fname.data ++ lparenC :: (params.data ++ rparenC :: rest.data)) := by
    rcases hhead with h | h <;> subst h
    · rw [stripSimple_plain, stripLit_self]
    · rw [stripLit_self]
  have hcore : ((fname.data ++ lparenC :: (params.data ++ rparenC :: rest.data)).takeWhile
      fun c => !(c = commaC || c = lparenC || c = rparenC)) = fname.data := by
    rw [takeWhile_append_all _ _ fun c hc => wordChar_not_special (hw c hc)]
    rw [List.takeWhile_cons_of_neg (by simp)]
    simp
  have hps : ((params.data ++ rparenC :: rest.data).takeWhile
      fun c2 => c2 ≠ rparenC) = params.data := by
    rw [takeWhile_append_all _ _ fun c hc => by simp [(hp c hc).1]]
    rw [List.takeWhile_cons_of_neg (by simp)]
    simp
  unfold extract_function_from_type
  simp only [hdata, hafter, hcore]
  rw [List.isEmpty_eq_false.mpr hfne, List.drop_left]
  have hfalse : (false = true) = False := by simp
  simp only [hfalse, if_false, hps]
  rw [if_pos trivial, List.drop_left]
  split
  next c2 tail h =>
    obtain ⟨h1, h2⟩ : rparenC = c2 ∧ rest.data = tail := by
      injection h with h1 h2
      exact ⟨h1, h2⟩
    subst h1
    have hassoc2 : fname.data ++ lparenC :: params.data ++ [rparenC] =
        fname.data ++ lparenC :: (params.data ++ [rparenC]) := by simp
    rw [hassoc2]
    rw [pyStrip_ends]
    · refine congrArg some (String.ext ?_)
      show fname.data ++ lparenC :: (params.data ++ [rparenC]) =
        (fname ++ "(" ++ params ++ ")").data
      rw [String.data_append, String.data_append, String.data_append]
      show fname.data ++ lparenC :: (params.data ++ [rparenC]) =
        fname.data ++ [lparenC] ++ params.data ++ [rparenC]
      simp
    · intro c hc
      cases hl : fname.data with
      | nil => exact absurd hl hfne
      | cons a as =>
        rw [hl] at hc
        cases hc
        apply wordChar_not_space
        apply hw
        rw [hl]
        simp
    · intro c hc
      have hassoc : fname.data ++ lparenC :: (params.data ++ [rparenC]) =
          (fname.data ++ lparenC :: params.data) ++ [rparenC] := by simp
      rw [hassoc, List.getLast?_concat] at hc
      cases hc
      decide
  next h => exact absurd h (by simp)

end Hdx

namespace Hdx

/-- C7: for a column whose declared type matches
`(Simple)?AggregateFunction(<func>, <types...>)`, enrichment sets
`column_category = "aggregate"`, `base_function` to the matched function
name including its own parameter list, and `merge_function` to the base
name with `Merge` inserted before the parameter list: an unparameterized
`f` yields `fMerge`, and a parameterized `f(p)` yields `fMerge(p)` — never
`f(p)Merge`. -/
theorem claim_C7_merge_function_formation :
    (∀ (head fname rest : String) (col : Column),
      (head = "AggregateFunction(" ∨ head = "SimpleAggregateFunction(") →
      col.column_type = head ++ (fname ++ ("," ++ rest)) →
      fname.data ≠ [] →
      (∀ c ∈ fname.data, (pyIsAlnumChar c || c = underscoreC) = true) →
      enrich_column_metadata col = { col with
        column_category := some "aggregate",
        base_function := some fname,
        merge_function := some (fname ++ "Merge") }) ∧
    (∀ (head fname params rest : String) (col : Column),
      (head = "AggregateFunction(" ∨ head = "SimpleAggregateFunction(") →
      col.column_type = head ++ (fname ++ ("(" ++ (params ++ (")" ++ rest)))) →
      fname.data ≠ [] →
      (∀ c ∈ fname.data, (pyIsAlnumChar c || c = underscoreC) = true) →
      params.data ≠ [] →
      (∀ c ∈ params.data, c ≠ rparenC ∧ c ≠ nlC) →
      enrich_column_metadata col = { col with
        column_category := some "aggregate",
        base_function := some (fname ++ "(" ++ params ++ ")"),
        merge_function := some (fname ++ "Merge(" ++ params ++ ")") }) := by
  constructor
  · intro head fname rest col hhead htype hfne hw
    have hextract := extract_unparam head fname rest hhead hfne hw
    have htruthy : pyTruthyStr (some fname) = true := by
      simp [pyTruthyStr, List.isEmpty_eq_false.mpr hfne]
    unfold enrich_column_metadata
    rw [htype]
    simp only [hextract, htruthy, if_true, Option.getD_some, merge_unparam fname hw]
  · intro head fname params rest col hhead htype hfne hw hpne hp
    have hextract := extract_param head fname params rest hhead hfne hw hp
    have htruthy : pyTruthyStr (some (fname ++ "(" ++ params ++ ")")) = true := by
      simp only [pyTruthyStr, Bool.not_eq_true']
      rw [List.isEmpty_eq_false]
      intro hnil
      have : (fname ++ "(" ++ params ++ ")").data =
          fname.data ++ lparenC :: (params.data ++ [rparenC]) := by
        rw [String.data_append, String.data_append, String.data_append]
        show fname.data ++ [lparenC] ++ params.data ++ [rparenC] =
          fname.data ++ lparenC :: (params.data ++ [rparenC])
        simp
      rw [this] at hnil
      simp at hnil
    unfold enrich_column_metadata
    rw [htype]
    simp only [hextract, htruthy, if_true, Option.getD_some,
      merge_param fname params hfne hw hpne hp]

def c7ColA : Column :=
  { database := "d", table := "t", name := "c",
    column_type := "AggregateFunction(count, String)" }

def c7ColB : Column :=
  { database := "d", table := "t", name := "c",
    column_type := "AggregateFunction(quantile(0.5), Float64)" }

/-- C7 witness: the claim's two examples, `count → countMerge` and
`quantile(0.5) → quantileMerge(0.5)`. -/
theorem claim_C7_merge_function_formation_witness :
    enrich_column_metadata c7ColA = { c7ColA with
      column_category := some "aggregate",
      base_function := some "count",
      merge_function := some "countMerge" } ∧
    enrich_column_metadata c7ColB = { c7ColB with
      column_category := some "aggregate",
      base_function := some "quantile(0.5)",
      merge_function := some "quantileMerge(0.5)" } := by
  constructor
  · have h := claim_C7_merge_function_formation.1 "AggregateFunction(" "count" " String)"
      c7ColA (Or.inl rfl) (by decide) (by decide) (by decide)
    rw [h]
    decide
  · have h := claim_C7_merge_function_formation.2 "AggregateFunction(" "quantile" "0.5"
      ", Float64)" c7ColB (Or.inl rfl) (by decide) (by decide) (by decide) (by decide)
      (by decide)
    rw [h]
    decide

end Hdx

namespace Hdx

/-! ### C6: query hashing -/

theorem compressStep_length (st : List Nat) (kw : Nat × Nat) :
    (compressStep st kw).length = st.length := by
  unfold compressStep
  split <;> simp

theorem foldl_compressStep_length (init : List Nat) (l : List (Nat × Nat)) :
    (l.foldl compressStep init).length = init.length := by
  induction l generalizing init with
  | nil => rfl
  | cons kw tl ih => rw [List.foldl_cons, ih, compressStep_length]

theorem compressBlock_length (h block : List Nat) (hh : h.length = 8) :
    (compressBlock h block).length = 8 := by
  unfold compressBlock
  rw [List.length_map, List.length_zip, foldl_compressStep_length, hh]
  simp

theorem sha_final_length (blocks : List (List Nat)) (h0 : List Nat) (hh : h0.length = 8) :
    (blocks.foldl compressBlock h0).length = 8 := by
  induction blocks generalizing h0 with
  | nil => exact hh
  | cons b tl ih =>
    rw [List.foldl_cons]
    exact ih _ (compressBlock_length _ _ hh)

theorem flatten_byteToHex_length (l : List Nat) :
    ((l.map byteToHex).flatten).length = 2 * l.length := by
  induction l with
  | nil => rfl
  | cons b tl ih =>
    simp only [List.map_cons, List.flatten_cons, List.length_append, ih, List.length_cons]
    simp [byteToHex]
    omega

theorem flatten_wordToBytes_length (l : List Nat) :
    ((l.map wordToBytes).flatten).length = 4 * l.length := by
  induction l with
  | nil => rfl
  | cons b tl ih =>
    simp only [List.map_cons, List.flatten_cons, List.length_append, ih, List.length_cons]
    simp [wordToBytes]
    omega

theorem sha256Bytes_length (msg : List Nat) : (sha256Bytes msg).length = 32 := by
  unfold sha256Bytes
  rw [flatten_wordToBytes_length, sha_final_length _ _ (by decide)]

theorem hexDigitChar_lower (k : Nat) (hk : k < 16) :
    (hexDigitChar k).isDigit = true ∨ (97 ≤ (hexDigitChar k).toNat ∧ (hexDigitChar k).toNat ≤ 102) := by
  revert k
  decide

/-- C6: `hash_query` normalizes only by trimming (equal-after-strip inputs
share a digest; the spec's three whitespace variants agree), internal
whitespace changes the digest (`"SELECT 1"` vs `"SELECT  1"`), and every
digest is a 64-character lowercase-hex string. -/
theorem claim_C6_hash_query :
    (∀ q1 q2 : String, pyStrip q1 = pyStrip q2 → hash_query q1 = hash_query q2) ∧
    (hash_query "SELECT 1" = hash_query "  SELECT 1  " ∧
      hash_query "SELECT 1" = hash_query "SELECT 1\n") ∧
    hash_query "SELECT 1" ≠ hash_query "SELECT  1" ∧
    (∀ q : String, (hash_query q).data.length = 64 ∧
      ∀ c ∈ (hash_query q).data,
        c.isDigit = true ∨ (97 ≤ c.toNat ∧ c.toNat ≤ 102)) := by
  have hcong : ∀ q1 q2 : String, pyStrip q1 = pyStrip q2 → hash_query q1 = hash_query q2 := by
    intro q1 q2 h
    unfold hash_query
    rw [h]
  refine ⟨hcong, ⟨hcong _ _ (by decide), hcong _ _ (by decide)⟩, by decide, fun q => ?_⟩
  constructor
  · show ((sha256Bytes (utf8EncodeL (pyStrip q).data)).map byteToHex).flatten.length = 64
    rw [flatten_byteToHex_length, sha256Bytes_length]
  · intro c hc
    have hc2 : c ∈ ((sha256Bytes (utf8EncodeL (pyStrip q).data)).map byteToHex).flatten := hc
    rw [List.mem_flatten] at hc2
    rcases hc2 with ⟨sub, hsub, hcin⟩
    rw [List.mem_map] at hsub
    rcases hsub with ⟨b, -, rfl⟩
    simp only [byteToHex, List.mem_cons, List.not_mem_nil, or_false] at hcin
    rcases hcin with rfl | rfl
    · exact hexDigitChar_lower _ (Nat.mod_lt _ (by omega))
    · exact hexDigitChar_lower _ (Nat.mod_lt _ (by omega))

end Hdx

namespace Hdx

/-- C6 witness: the trim-congruence applied at a concrete pair. -/
theorem claim_C6_hash_query_witness :
    hash_query "SELECT 1\t" = hash_query " SELECT 1" :=
  claim_C6_hash_query.1 "SELECT 1\t" " SELECT 1" (by decide)

end Hdx

namespace Hdx

/-! ### Printer/parser roundtrip: strings -/

/-- Valid unicode scalar facts for a `Char`'s code point. -/
theorem char_toNat_facts (c : Char) :
    c.toNat < 55296 ∨ (57343 < c.toNat ∧ c.toNat < 1114112) := by
  have h := c.valid
  rcases h with h | ⟨h1, h2⟩
  · exact Or.inl h
  · exact Or.inr ⟨h1, h2⟩

theorem hexVal_hexDigitChar (k : Nat) (hk : k < 16) :
    hexVal (hexDigitChar k) = some k := by
  revert k
  decide

theorem hexVal4_toHex4 (n : Nat) (hn : n < 65536) :
    (match toHex4 n with
      | [a, b, c, d] => hexVal4 a b c d
      | _ => none) = some n := by
  show hexVal4 (hexDigitChar (n / 4096 % 16)) (hexDigitChar (n / 256 % 16))
    (hexDigitChar (n / 16 % 16)) (hexDigitChar (n % 16)) = some n
  unfold hexVal4
  rw [hexVal_hexDigitChar _ (Nat.mod_lt _ (by omega)),
    hexVal_hexDigitChar _ (Nat.mod_lt _ (by omega)),
    hexVal_hexDigitChar _ (Nat.mod_lt _ (by omega)),
    hexVal_hexDigitChar _ (Nat.mod_lt _ (by omega))]
  show some (n / 4096 % 16 * 4096 + n / 256 % 16 * 256 + n / 16 % 16 * 16 + n % 16) = some n
  congr 1
  omega

end Hdx

namespace Hdx

theorem hexVal4_digits (n : Nat) (hn : n < 65536) :
    hexVal4 (hexDigitChar (n / 4096 % 16)) (hexDigitChar (n / 256 % 16))
      (hexDigitChar (n / 16 % 16)) (hexDigitChar (n % 16)) = some n :=
  hexVal4_toHex4 n hn

theorem parseStrBody_uni (fuel : Nat) (n : Nat) (suffix : List Char)
    (hn : n < 65536) (hno1 : ¬(55296 ≤ n ∧ n ≤ 56319)) (hno2 : ¬(56320 ≤ n ∧ n ≤ 57343)) :
    parseStrBody (fuel + 1) (bslashC :: 'u' :: toHex4 n ++ suffix) =
      (parseStrBody fuel suffix).map fun p => (Char.ofNat n :: p.1, p.2) := by
  show parseStrBody (fuel + 1) (bslashC :: 'u' ::
    hexDigitChar (n / 4096 % 16) :: hexDigitChar (n / 256 % 16) ::
    hexDigitChar (n / 16 % 16) :: hexDigitChar (n % 16) :: suffix) = _
  simp only [parseStrBody, eq_false (by decide : ¬(bslashC = quoteC)),
    if_false, if_pos rfl, hexVal4_digits n hn, if_neg hno1, if_neg hno2]
  cases h : parseStrBody fuel suffix <;> simp

theorem parseStrBody_surr (fuel : Nat) (v w : Nat) (suffix : List Char)
    (hv : v < 65536) (hw : w < 65536)
    (hvs : 55296 ≤ v ∧ v ≤ 56319) (hws : 56320 ≤ w ∧ w ≤ 57343) :
    parseStrBody (fuel + 1)
        (bslashC :: 'u' :: toHex4 v ++ (bslashC :: 'u' :: toHex4 w) ++ suffix) =
      (parseStrBody fuel suffix).map fun p =>
        (Char.ofNat (65536 + (v - 55296) * 1024 + (w - 56320)) :: p.1, p.2) := by
  show parseStrBody (fuel + 1) (bslashC :: 'u' ::
    hexDigitChar (v / 4096 % 16) :: hexDigitChar (v / 256 % 16) ::
    hexDigitChar (v / 16 % 16) :: hexDigitChar (v % 16) ::
    bslashC :: 'u' ::
    hexDigitChar (w / 4096 % 16) :: hexDigitChar (w / 256 % 16) ::
    hexDigitChar (w / 16 % 16) :: hexDigitChar (w % 16) :: suffix) = _
  simp only [parseStrBody, eq_false (by decide : ¬(bslashC = quoteC)),
    if_false, if_pos rfl, hexVal4_digits v hv, hexVal4_digits w hw,
    if_pos hvs, if_pos hws, if_pos (⟨rfl, rfl⟩ : bslashC = bslashC ∧ 'u' = 'u')]
  cases h : parseStrBody fuel suffix <;> simp

/-- One escaped character parses back, continuing on the suffix. -/
theorem parseStrBody_escape (c : Char) (fuel : Nat) (suffix : List Char) :
    parseStrBody (fuel + 1) (escapeChar c ++ suffix) =
      (parseStrBody fuel suffix).map fun p => (c :: p.1, p.2) := by
  have hfacts := char_toNat_facts c
  by_cases h1 : c = quoteC
  · subst h1
    rw [show escapeChar quoteC = [bslashC, quoteC] from by decide]
    simp +decide [parseStrBody, shortEscape]
    cases h : parseStrBody fuel suffix <;> simp
  · by_cases h2 : c = bslashC
    · subst h2
      rw [show escapeChar bslashC = [bslashC, bslashC] from by decide]
      simp +decide [parseStrBody, shortEscape]
      cases h : parseStrBody fuel suffix <;> simp
    · by_cases h3 : c = Char.ofNat 8
      · subst h3
        rw [show escapeChar (Char.ofNat 8) = [bslashC, 'b'] from by decide]
        simp +decide [parseStrBody, shortEscape]
        cases h : parseStrBody fuel suffix <;> simp
      · by_cases h4 : c = tabC
        · subst h4
          rw [show escapeChar tabC = [bslashC, 't'] from by decide]
          simp +decide [parseStrBody, shortEscape]
          cases h : parseStrBody fuel suffix <;> simp
        · by_cases h5 : c = nlC
          · subst h5
            rw [show escapeChar nlC = [bslashC, 'n'] from by decide]
            simp +decide [parseStrBody, shortEscape]
            cases h : parseStrBody fuel suffix <;> simp
          · by_cases h6 : c = Char.ofNat 12
            · subst h6
              rw [show escapeChar (Char.ofNat 12) = [bslashC, 'f'] from by decide]
              simp +decide [parseStrBody, shortEscape]
              cases h : parseStrBody fuel suffix <;> simp
            · by_cases h7 : c = crC
              · subst h7
                rw [show escapeChar crC = [bslashC, 'r'] from by decide]
                simp +decide [parseStrBody, shortEscape]
                cases h : parseStrBody fuel suffix <;> simp
              · by_cases h8 : c.toNat < 32 ∨ 127 ≤ c.toNat
                · by_cases h10 : c.toNat < 65536
                  · -- single \uXXXX escape
                    have hs1 : ¬(55296 ≤ c.toNat ∧ c.toNat ≤ 56319) := by omega
                    have hs2 : ¬(56320 ≤ c.toNat ∧ c.toNat ≤ 57343) := by omega
                    have hesc : escapeChar c = bslashC :: 'u' :: toHex4 c.toNat := by
                      unfold escapeChar
                      rw [if_neg h1, if_neg h2, if_neg h3, if_neg h4, if_neg h5, if_neg h6,
                        if_neg h7, if_pos h8, if_pos h10]
                    rw [hesc]
                    show parseStrBody (fuel + 1)
                      (bslashC :: 'u' :: toHex4 c.toNat ++ suffix) = _
                    rw [parseStrBody_uni fuel c.toNat suffix h10 hs1 hs2, Char.ofNat_toNat]
                  · -- surrogate pair
                    have hrange : 57343 < c.toNat ∧ c.toNat < 1114112 := by omega
                    have hv65 : 55296 + (c.toNat - 65536) / 1024 < 65536 := by omega
                    have hw65 : 56320 + (c.toNat - 65536) % 1024 < 65536 := by omega
                    have hvs : 55296 ≤ 55296 + (c.toNat - 65536) / 1024 ∧
                        55296 + (c.toNat - 65536) / 1024 ≤ 56319 := by omega
                    have hws : 56320 ≤ 56320 + (c.toNat - 65536) % 1024 ∧
                        56320 + (c.toNat - 65536) % 1024 ≤ 57343 := by omega
                    have hesc : escapeChar c =
                        bslashC :: 'u' :: toHex4 (55296 + (c.toNat - 65536) / 1024) ++
                          (bslashC :: 'u' :: toHex4 (56320 + (c.toNat - 65536) % 1024)) := by
                      unfold escapeChar
                      rw [if_neg h1, if_neg h2, if_neg h3, if_neg h4, if_neg h5, if_neg h6,
                        if_neg h7, if_pos h8, if_neg h10]
                    rw [hesc]
                    show parseStrBody (fuel + 1)
                      (bslashC :: 'u' :: toHex4 (55296 + (c.toNat - 65536) / 1024) ++
                        (bslashC :: 'u' :: toHex4 (56320 + (c.toNat - 65536) % 1024)) ++
                        suffix) = _
                    rw [parseStrBody_surr fuel _ _ suffix hv65 hw65 hvs hws]
                    have harith : 65536 + (55296 + (c.toNat - 65536) / 1024 - 55296) * 1024 +
                        (56320 + (c.toNat - 65536) % 1024 - 56320) = c.toNat := by omega
                    rw [harith, Char.ofNat_toNat]
                · -- literal printable character
                  have hesc : escapeChar c = [c] := by
                    unfold escapeChar
                    rw [if_neg h1, if_neg h2, if_neg h3, if_neg h4, if_neg h5, if_neg h6,
                      if_neg h7, if_neg h8]
                  rw [hesc]
                  have h9 : ¬c.toNat < 32 := by omega
                  show parseStrBody (fuel + 1) (c :: suffix) = _
                  simp only [parseStrBody, h1, h2, h9, if_false]
                  cases h : parseStrBody fuel suffix <;> simp

end Hdx
namespace Hdx

theorem escapeChar_ne_nil (c : Char) : escapeChar c ≠ [] := by
  unfold escapeChar
  repeat' split
  all_goals simp

theorem flatten_escape_len (cs : List Char) :
    cs.length ≤ ((cs.map escapeChar).flatten).length := by
  induction cs with
  | nil => simp
  | cons c cs ih =>
    have h := List.length_pos.mpr (escapeChar_ne_nil c)
    simp only [List.map_cons, List.flatten_cons, List.length_append, List.length_cons]
    omega

theorem parseStrBody_printed (cs : List Char) : ∀ (fuel : Nat) (suffix : List Char),
    cs.length < fuel →
    parseStrBody fuel ((cs.map escapeChar).flatten ++ quoteC :: suffix) =
      some (cs, suffix) := by
  induction cs with
  | nil =>
    intro fuel suffix hf
    cases fuel with
    | zero => omega
    | succ f => simp [parseStrBody]
  | cons c cs ih =>
    intro fuel suffix hf
    cases fuel with
    | zero => omega
    | succ f =>
      simp only [List.map_cons, List.flatten_cons, List.append_assoc]
      rw [parseStrBody_escape, ih f suffix (by simp at hf; omega)]
      rfl

theorem parseStr_printed (s : List Char) (suffix : List Char) :
    parseStr ((s.map escapeChar).flatten ++ quoteC :: suffix) = some (s, suffix) := by
  unfold parseStr
  apply parseStrBody_printed
  have h := flatten_escape_len s
  simp only [List.length_append, List.length_cons]
  omega

theorem char_toNat_inj {c d : Char} (h : c.toNat = d.toNat) : c = d := by
  rw [← Char.ofNat_toNat c, ← Char.ofNat_toNat d, h]

theorem char_ne_toNat {c d : Char} (h : c.toNat ≠ d.toNat) : c ≠ d :=
  fun he => h (congrArg Char.toNat he)

theorem digitChar_toNat : ∀ k, k < 10 → (Char.ofNat (48 + k)).toNat = 48 + k := by decide

theorem digitsVal_append_one (ds : List Char) (c : Char) :
    digitsVal (ds ++ [c]) = digitsVal ds * 10 + (c.toNat - 48) := by
  simp [digitsVal, List.foldl_append]

theorem natDigitsF_spec : ∀ (fuel : Nat) (n : Nat), n < 10 ^ (fuel + 1) →
    digitsVal (natDigitsF (fuel + 1) n) = n ∧
    natDigitsF (fuel + 1) n ≠ [] ∧
    (∀ c ∈ natDigitsF (fuel + 1) n, 48 ≤ c.toNat ∧ c.toNat ≤ 57) ∧
    (1 ≤ n → ∀ c, (natDigitsF (fuel + 1) n).head? = some c → 49 ≤ c.toNat) := by
  intro fuel
  induction fuel with
  | zero =>
    intro n hn
    have hn10 : n < 10 := by simpa using hn
    rw [show natDigitsF 1 n = [Char.ofNat (48 + n)] from by simp [natDigitsF, hn10]]
    refine ⟨by simp [digitsVal, digitChar_toNat n hn10], by simp, ?_, ?_⟩
    · intro c hc
      simp at hc
      subst hc
      rw [digitChar_toNat n hn10]
      omega
    · intro h1 c hc
      simp at hc
      subst hc
      rw [digitChar_toNat n hn10]
      omega
  | succ fuel ih =>
    intro n hn
    by_cases h10 : n < 10
    · rw [show natDigitsF (fuel + 2) n = [Char.ofNat (48 + n)] from by
        simp [natDigitsF, h10]]
      refine ⟨by simp [digitsVal, digitChar_toNat n h10], by simp, ?_, ?_⟩
      · intro c hc
        simp at hc
        subst hc
        rw [digitChar_toNat n h10]
        omega
      · intro h1 c hc
        simp at hc
        subst hc
        rw [digitChar_toNat n h10]
        omega
    · have hrec : n / 10 < 10 ^ (fuel + 1) := by
        rw [Nat.div_lt_iff_lt_mul (by omega)]
        calc n < 10 ^ (fuel + 2) := hn
        _ = 10 ^ (fuel + 1) * 10 := by rw [pow_succ]
      obtain ⟨ihv, ihne, ihmem, ihhd⟩ := ih (n / 10) hrec
      have hmod : n % 10 < 10 := Nat.mod_lt _ (by omega)
      rw [show natDigitsF (fuel + 2) n
          = natDigitsF (fuel + 1) (n / 10) ++ [Char.ofNat (48 + n % 10)] from by
        rw [natDigitsF, if_neg h10]]
      refine ⟨?_, by simp, ?_, ?_⟩
      · rw [digitsVal_append_one, ihv, digitChar_toNat _ hmod]
        omega
      · intro c hc
        rcases List.mem_append.mp hc with h | h
        · exact ihmem c h
        · simp at h
          subst h
          rw [digitChar_toNat _ hmod]
          omega
      · intro _ c hc
        rcases hA : natDigitsF (fuel + 1) (n / 10) with _ | ⟨a, as⟩
        · exact absurd hA ihne
        · rw [hA] at hc
          simp at hc
          subst hc
          exact ihhd (by omega) a (by rw [hA]; rfl)

theorem natDigits_spec (n : Nat) :
    digitsVal (natDigits n) = n ∧ natDigits n ≠ [] ∧
    (∀ c ∈ natDigits n, 48 ≤ c.toNat ∧ c.toNat ≤ 57) ∧
    (1 ≤ n → ∀ c, (natDigits n).head? = some c → 49 ≤ c.toNat) := by
  have hpow : n < 10 ^ (n + 1) :=
    lt_of_lt_of_le (Nat.lt_pow_self (by omega) n)
      (Nat.pow_le_pow_right (by omega) (Nat.le_succ n))
  exact natDigitsF_spec n n hpow

end Hdx
namespace Hdx

/-- A continuation in front of which a JSON number token ends: empty input
or a character that neither extends the digit run nor turns the number
into a float. -/
def numSafe : List Char → Bool
  | [] => true
  | c :: _ => !(isDig c || c = Char.ofNat 46 || c = 'e' || c = 'E')

theorem numSafe_head {c : Char} {r : List Char} (h : numSafe (c :: r) = true) :
    isDig c = false ∧ c ≠ Char.ofNat 46 ∧ c ≠ 'e' ∧ c ≠ 'E' := by
  simp only [numSafe, Bool.not_eq_true', Bool.or_eq_false_iff, decide_eq_false_iff_not] at h
  exact ⟨h.1.1.1, h.1.1.2, h.1.2, h.2⟩

theorem takeDigits_run (ds : List Char) (suffix : List Char)
    (hds : ∀ c ∈ ds, 48 ≤ c.toNat ∧ c.toNat ≤ 57) (hsafe : numSafe suffix = true) :
    takeDigits (ds ++ suffix) = (ds, suffix) := by
  induction ds with
  | nil =>
    cases suffix with
    | nil => rfl
    | cons c r =>
      have hc := (numSafe_head hsafe).1
      simp [takeDigits, hc]
  | cons d ds ih =>
    have hb := hds d (by simp)
    have hd : isDig d = true := by
      simp only [isDig, Bool.and_eq_true, decide_eq_true_eq]
      omega
    have ih2 := ih fun c hc => hds c (by simp [hc])
    simp [takeDigits, hd, ih2]

theorem parseIntTok_printed (i : Int) (suffix : List Char) (hsafe : numSafe suffix = true) :
    parseIntTok (printInt i ++ suffix) = some (i, suffix) := by
  have h45 : minusC.toNat = 45 := by decide
  have h48 : ('0' : Char).toNat = 48 := by decide
  by_cases hneg : i < 0
  · -- negative: minus sign then a nonzero digit run
    have hm : 1 ≤ i.natAbs := by omega
    obtain ⟨hval, hne, hmem, hhd⟩ := natDigits_spec i.natAbs
    rcases hA : natDigits i.natAbs with _ | ⟨d, ds⟩
    · exact absurd hA hne
    · rw [hA] at hval hmem hhd
      have hd49 : 49 ≤ d.toNat := hhd hm d rfl
      have hd57 : d.toNat ≤ 57 := (hmem d (by simp)).2
      have hdm : (d = minusC) = False := eq_false (char_ne_toNat (by omega))
      have hd0 : (d = '0') = False := eq_false (char_ne_toNat (by omega))
      have hdig : isDig d = true := by
        simp only [isDig, Bool.and_eq_true, decide_eq_true_eq]
        omega
      have htake : takeDigits (ds ++ suffix) = (ds, suffix) :=
        takeDigits_run ds suffix (fun c hc => hmem c (by simp [hc])) hsafe
      rw [show printInt i = minusC :: d :: ds from by rw [printInt, if_pos hneg, hA]]
      show parseIntTok (minusC :: (d :: (ds ++ suffix))) = _
      unfold parseIntTok
      simp only [if_pos rfl, hdm, hd0, if_false, hdig, if_true, htake]
      cases suffix with
      | nil =>
        simp only [hval]
        have hfin : Int.ofNat i.natAbs * -1 = i := by
          simp only [Int.ofNat_eq_natCast]
          omega
        rw [hfin]
      | cons c r =>
        obtain ⟨-, h46, he, hE⟩ := numSafe_head hsafe
        have hcond : (c = Char.ofNat 46 ∨ c = 'e' ∨ c = 'E') = False :=
          eq_false (by rintro (h | h | h) <;> [exact h46 h; exact he h; exact hE h])
        simp only [hcond, if_false, hval]
        have hfin : Int.ofNat i.natAbs * -1 = i := by
          simp only [Int.ofNat_eq_natCast]
          omega
        rw [hfin]
  · by_cases hz : i = 0
    · subst hz
      show parseIntTok ('0' :: suffix) = _
      cases suffix with
      | nil => rfl
      | cons c r =>
        obtain ⟨-, h46, he, hE⟩ := numSafe_head hsafe
        have hcond : (c = Char.ofNat 46 ∨ c = 'e' ∨ c = 'E') = False :=
          eq_false (by rintro (h | h | h) <;> [exact h46 h; exact he h; exact hE h])
        unfold parseIntTok
        simp only [show (('0' : Char) = minusC) = False from by decide, if_false,
          eq_self_iff_true, if_true, hcond]
    · -- positive
      have hm : 1 ≤ i.natAbs := by omega
      obtain ⟨hval, hne, hmem, hhd⟩ := natDigits_spec i.natAbs
      rcases hA : natDigits i.natAbs with _ | ⟨d, ds⟩
      · exact absurd hA hne
      · rw [hA] at hval hmem hhd
        have hd49 : 49 ≤ d.toNat := hhd hm d rfl
        have hd57 : d.toNat ≤ 57 := (hmem d (by simp)).2
        have hdm : (d = minusC) = False := eq_false (char_ne_toNat (by omega))
        have hd0 : (d = '0') = False := eq_false (char_ne_toNat (by omega))
        have hdig : isDig d = true := by
          simp only [isDig, Bool.and_eq_true, decide_eq_true_eq]
          omega
        have htake : takeDigits (ds ++ suffix) = (ds, suffix) :=
          takeDigits_run ds suffix (fun c hc => hmem c (by simp [hc])) hsafe
        rw [show printInt i = d :: ds from by rw [printInt, if_neg hneg, hA]]
        show parseIntTok (d :: (ds ++ suffix)) = _
        unfold parseIntTok
        simp only [hdm, if_false, hd0, hdig, if_true, htake,
          show (false = true) = False from by decide]
        cases suffix with
        | nil =>
          simp only [hval]
          have hfin : Int.ofNat i.natAbs * 1 = i := by
            simp only [Int.ofNat_eq_natCast]
            omega
          rw [hfin]
        | cons c r =>
          obtain ⟨-, h46, he, hE⟩ := numSafe_head hsafe
          have hcond : (c = Char.ofNat 46 ∨ c = 'e' ∨ c = 'E') = False :=
            eq_false (by rintro (h | h | h) <;> [exact h46 h; exact he h; exact hE h])
          simp only [hcond, if_false, hval]
          have hfin : Int.ofNat i.natAbs * 1 = i := by
            simp only [Int.ofNat_eq_natCast]
            omega
          rw [hfin]

end Hdx
namespace Hdx

/-! Fuel budgets sufficient for the value parser on printed output: every
recursive parser call decrements the fuel by one. -/

mutual

def needJ : Json → Nat
  | .null => 1
  | .bool _ => 1
  | .int _ => 1
  | .str _ => 1
  | .arr xs => 1 + needAS xs
  | .obj kvs => 1 + needOS kvs
termination_by structural j => j

def needAS : JsonList → Nat
  | .nil => 1
  | .cons x tl => 1 + Nat.max (needJ x) (needAT tl)
termination_by structural xs => xs

def needAT : JsonList → Nat
  | .nil => 1
  | .cons x tl => 1 + Nat.max (needJ x) (needAT tl)
termination_by structural xs => xs

def needOS : JsonObj → Nat
  | .nil => 1
  | .cons _ v tl => 1 + Nat.max (needJ v) (needOT tl)
termination_by structural kvs => kvs

def needOT : JsonObj → Nat
  | .nil => 1
  | .cons _ v tl => 1 + Nat.max (needJ v) (needOT tl)
termination_by structural kvs => kvs

end

theorem needJ_pos (j : Json) : 1 ≤ needJ j := by
  cases j <;> simp only [needJ] <;> omega

theorem skipWs_ws (c : Char) (h : isJsonWs c = true) (cs : List Char) :
    skipWs (c :: cs) = skipWs cs := by
  simp [skipWs, h]

theorem skipWs_not (c : Char) (h : isJsonWs c = false) (cs : List Char) :
    skipWs (c :: cs) = c :: cs := by
  simp [skipWs, h]

theorem parseValue_ws (c : Char) (h : isJsonWs c = true) (f : Nat) (cs : List Char) :
    parseValue (f + 1) (c :: cs) = parseValue (f + 1) cs := by
  simp only [parseValue, skipWs_ws c h]

theorem isJsonWs_false {c : Char} (h32 : c.toNat ≠ 32) (h9 : c.toNat ≠ 9)
    (h10 : c.toNat ≠ 10) (h13 : c.toNat ≠ 13) : isJsonWs c = false := by
  simp only [isJsonWs, decide_eq_false_iff_not]
  rintro (rfl | rfl | rfl | rfl)
  · exact h32 (by decide)
  · exact h9 (by decide)
  · exact h10 (by decide)
  · exact h13 (by decide)

theorem printInt_head (i : Int) : ∃ c rest, printInt i = c :: rest ∧
    (c.toNat = 45 ∨ (48 ≤ c.toNat ∧ c.toNat ≤ 57)) := by
  obtain ⟨-, hne, hmem, -⟩ := natDigits_spec i.natAbs
  rcases hA : natDigits i.natAbs with _ | ⟨d, ds⟩
  · exact absurd hA hne
  · have hd := hmem d (by rw [hA]; simp)
    by_cases hneg : i < 0
    · exact ⟨minusC, natDigits i.natAbs, by rw [printInt, if_pos hneg], Or.inl (by decide)⟩
    · exact ⟨d, ds, by rw [printInt, if_neg hneg, hA], Or.inr hd⟩

theorem printJ_head (j : Json) : ∃ c rest, printJ j = c :: rest ∧
    isJsonWs c = false ∧ c.toNat ≠ 93 ∧ c.toNat ≠ 125 ∧ c.toNat ≠ 44 ∧ c.toNat ≠ 58 := by
  cases j with
  | null => exact ⟨'n', _, rfl, by decide, by decide, by decide, by decide, by decide⟩
  | bool b =>
    cases b with
    | true => exact ⟨'t', _, rfl, by decide, by decide, by decide, by decide, by decide⟩
    | false => exact ⟨'f', _, rfl, by decide, by decide, by decide, by decide, by decide⟩
  | int n =>
    obtain ⟨c, rest, hP, hc⟩ := printInt_head n
    exact ⟨c, rest, hP, isJsonWs_false (by omega) (by omega) (by omega) (by omega),
      by omega, by omega, by omega, by omega⟩
  | str s => exact ⟨quoteC, _, rfl, by decide, by decide, by decide, by decide, by decide⟩
  | arr xs => exact ⟨lbrackC, _, rfl, by decide, by decide, by decide, by decide, by decide⟩
  | obj kvs => exact ⟨lbraceC, _, rfl, by decide, by decide, by decide, by decide, by decide⟩

theorem numSafe_sepL (tl : JsonList) (suffix : List Char) :
    numSafe (printSepL tl ++ rbrackC :: suffix) = true := by
  cases tl <;> simp +decide [printSepL, numSafe, isDig]

theorem numSafe_sepO (tl : JsonObj) (suffix : List Char) :
    numSafe (printSepO tl ++ rbraceC :: suffix) = true := by
  cases tl <;> simp +decide [printSepO, numSafe, isDig]

end Hdx
namespace Hdx

mutual

/-- The value parser reads back exactly the printed value, leaving the
suffix, whenever the fuel covers the budget and the suffix cannot extend a
number token. -/
theorem rt_J (j : Json) : ∀ (f : Nat) (suffix : List Char), needJ j ≤ f →
    numSafe suffix = true →
    parseValue f (printJ j ++ suffix) = some (j, suffix) := by
  cases j with
  | null =>
    intro f suffix hf _
    cases f with
    | zero => exact absurd hf (by simp [needJ])
    | succ f =>
      show parseValue (f + 1) ('n' :: 'u' :: 'l' :: 'l' :: suffix) = _
      simp +decide [parseValue, skipWs]
  | bool b =>
    intro f suffix hf _
    cases f with
    | zero => exact absurd hf (by simp [needJ])
    | succ f =>
      cases b with
      | true =>
        show parseValue (f + 1) ('t' :: 'r' :: 'u' :: 'e' :: suffix) = _
        simp +decide [parseValue, skipWs]
      | false =>
        show parseValue (f + 1) ('f' :: 'a' :: 'l' :: 's' :: 'e' :: suffix) = _
        simp +decide [parseValue, skipWs]
  | int n =>
    intro f suffix hf hsafe
    cases f with
    | zero => exact absurd hf (by simp [needJ])
    | succ f =>
      obtain ⟨c, restP, hP, hc⟩ := printInt_head n
      have hws : isJsonWs c = false :=
        isJsonWs_false (by omega) (by omega) (by omega) (by omega)
      show parseValue (f + 1) (printInt n ++ suffix) = _
      rw [hP, List.cons_append]
      simp only [parseValue, skipWs_not c hws,
        show (c = lbraceC) = False from eq_false (char_ne_toNat
          (by rw [show lbraceC.toNat = 123 from by decide]; omega)),
        show (c = lbrackC) = False from eq_false (char_ne_toNat
          (by rw [show lbrackC.toNat = 91 from by decide]; omega)),
        show (c = quoteC) = False from eq_false (char_ne_toNat
          (by rw [show quoteC.toNat = 34 from by decide]; omega)),
        show (c = 'n') = False from eq_false (char_ne_toNat
          (by rw [show ('n' : Char).toNat = 110 from by decide]; omega)),
        show (c = 't') = False from eq_false (char_ne_toNat
          (by rw [show ('t' : Char).toNat = 116 from by decide]; omega)),
        show (c = 'f') = False from eq_false (char_ne_toNat
          (by rw [show ('f' : Char).toNat = 102 from by decide]; omega)),
        if_false]
      rw [← List.cons_append, ← hP, parseIntTok_printed n suffix hsafe]
  | str s =>
    intro f suffix hf _
    cases f with
    | zero => exact absurd hf (by simp [needJ])
    | succ f =>
      obtain ⟨sd⟩ := s
      have hshape : printJ (.str (String.mk sd)) ++ suffix
          = quoteC :: ((sd.map escapeChar).flatten ++ quoteC :: suffix) := by
        simp [printJ, printStr]
      rw [hshape]
      simp only [parseValue, skipWs_not quoteC (by decide),
        show (quoteC = lbraceC) = False from by decide,
        show (quoteC = lbrackC) = False from by decide,
        if_false, eq_self_iff_true, if_true, parseStr_printed]
  | arr xs =>
    intro f suffix hf _
    cases f with
    | zero => exact absurd hf (by simp [needJ])
    | succ f =>
      have hAS : needAS xs ≤ f := by
        have h2 : 1 + needAS xs ≤ f + 1 := by simpa [needJ] using hf
        omega
      have hshape : printJ (.arr xs) ++ suffix
          = lbrackC :: (printL xs ++ rbrackC :: suffix) := by
        simp [printJ]
      rw [hshape]
      simp only [parseValue, skipWs_not lbrackC (by decide),
        show (lbrackC = lbraceC) = False from by decide,
        if_false, eq_self_iff_true, if_true]
      rw [rt_AS xs f suffix hAS]
  | obj kvs =>
    intro f suffix hf _
    cases f with
    | zero => exact absurd hf (by simp [needJ])
    | succ f =>
      have hOS : needOS kvs ≤ f := by
        have h2 : 1 + needOS kvs ≤ f + 1 := by simpa [needJ] using hf
        omega
      have hshape : printJ (.obj kvs) ++ suffix
          = lbraceC :: (printO kvs ++ rbraceC :: suffix) := by
        simp [printJ]
      rw [hshape]
      simp only [parseValue, skipWs_not lbraceC (by decide),
        eq_self_iff_true, if_true]
      rw [rt_OS kvs f suffix hOS]
termination_by structural j

/-- Array parser after `[` on a printed element list followed by `]`. -/
theorem rt_AS (xs : JsonList) : ∀ (f : Nat) (suffix : List Char), needAS xs ≤ f →
    parseArrStart f (printL xs ++ rbrackC :: suffix) = some (xs, suffix) := by
  cases xs with
  | nil =>
    intro f suffix hf
    cases f with
    | zero => exact absurd hf (by simp [needAS])
    | succ f =>
      show parseArrStart (f + 1) (rbrackC :: suffix) = _
      simp +decide [parseArrStart, skipWs]
  | cons x tl =>
    intro f suffix hf
    cases f with
    | zero => exact absurd hf (by simp [needAS])
    | succ f =>
      have hmax : Nat.max (needJ x) (needAT tl) ≤ f := by
        have h2 : 1 + Nat.max (needJ x) (needAT tl) ≤ f + 1 := by simpa [needAS] using hf
        omega
      have hx : needJ x ≤ f := le_trans (Nat.le_max_left _ _) hmax
      have htl : needAT tl ≤ f := le_trans (Nat.le_max_right _ _) hmax
      obtain ⟨c, restP, hP, hws, h93, h125, h44, h58⟩ := printJ_head x
      have hshape : printL (.cons x tl) ++ rbrackC :: suffix
          = c :: (restP ++ (printSepL tl ++ rbrackC :: suffix)) := by
        simp [printL, hP]
      rw [hshape]
      simp only [parseArrStart, skipWs_not c hws,
        show (c = rbrackC) = False from eq_false (char_ne_toNat
          (by rw [show rbrackC.toNat = 93 from by decide]; omega)),
        if_false]
      rw [show c :: (restP ++ (printSepL tl ++ rbrackC :: suffix))
          = printJ x ++ (printSepL tl ++ rbrackC :: suffix) from by rw [hP]; simp]
      simp only [rt_J x f (printSepL tl ++ rbrackC :: suffix) hx (numSafe_sepL tl suffix),
        rt_AT tl f suffix htl]
termination_by structural xs

/-- Array continuation parser on a printed `, `-separated tail followed by
`]`. -/
theorem rt_AT (tl : JsonList) : ∀ (f : Nat) (suffix : List Char), needAT tl ≤ f →
    parseArrTail f (printSepL tl ++ rbrackC :: suffix) = some (tl, suffix) := by
  cases tl with
  | nil =>
    intro f suffix hf
    cases f with
    | zero => exact absurd hf (by simp [needAT])
    | succ f =>
      show parseArrTail (f + 1) (rbrackC :: suffix) = _
      simp +decide [parseArrTail, skipWs]
  | cons x tl =>
    intro f suffix hf
    cases f with
    | zero => exact absurd hf (by simp [needAT])
    | succ f =>
      have hmax : Nat.max (needJ x) (needAT tl) ≤ f := by
        have h2 : 1 + Nat.max (needJ x) (needAT tl) ≤ f + 1 := by simpa [needAT] using hf
        omega
      have hx : needJ x ≤ f := le_trans (Nat.le_max_left _ _) hmax
      have htl : needAT tl ≤ f := le_trans (Nat.le_max_right _ _) hmax
      have hshape : printSepL (.cons x tl) ++ rbrackC :: suffix
          = commaC :: (spaceC :: (printJ x ++ (printSepL tl ++ rbrackC :: suffix))) := by
        simp [printSepL]
      rw [hshape]
      simp only [parseArrTail, skipWs_not commaC (by decide),
        show (commaC = rbrackC) = False from by decide, if_false,
        eq_self_iff_true, if_true]
      obtain ⟨g, rfl⟩ : ∃ g, f = g + 1 := ⟨f - 1, by have := needJ_pos x; omega⟩
      simp only [parseValue_ws spaceC (by decide),
        rt_J x (g + 1) (printSepL tl ++ rbrackC :: suffix) hx (numSafe_sepL tl suffix),
        rt_AT tl (g + 1) suffix htl]
termination_by structural tl

/-- Object parser after `{` on a printed member list followed by `}`. -/
theorem rt_OS (kvs : JsonObj) : ∀ (f : Nat) (suffix : List Char), needOS kvs ≤ f →
    parseObjStart f (printO kvs ++ rbraceC :: suffix) = some (kvs, suffix) := by
  cases kvs with
  | nil =>
    intro f suffix hf
    cases f with
    | zero => exact absurd hf (by simp [needOS])
    | succ f =>
      show parseObjStart (f + 1) (rbraceC :: suffix) = _
      simp +decide [parseObjStart, skipWs]
  | cons k v tl =>
    intro f suffix hf
    cases f with
    | zero => exact absurd hf (by simp [needOS])
    | succ f =>
      have hmax : Nat.max (needJ v) (needOT tl) ≤ f := by
        have h2 : 1 + Nat.max (needJ v) (needOT tl) ≤ f + 1 := by simpa [needOS] using hf
        omega
      have hv : needJ v ≤ f := le_trans (Nat.le_max_left _ _) hmax
      have htl : needOT tl ≤ f := le_trans (Nat.le_max_right _ _) hmax
      obtain ⟨kd⟩ := k
      have hshape : printO (.cons (String.mk kd) v tl) ++ rbraceC :: suffix
          = quoteC :: ((kd.map escapeChar).flatten ++ quoteC ::
              (colonC :: (spaceC :: (printJ v ++ (printSepO tl ++ rbraceC :: suffix))))) := by
        simp [printO, printStr]
      rw [hshape]
      simp only [parseObjStart, skipWs_not quoteC (by decide),
        show (quoteC = rbraceC) = False from by decide, if_false,
        eq_self_iff_true, if_true, parseStr_printed, skipWs_not colonC (by decide)]
      obtain ⟨g, rfl⟩ : ∃ g, f = g + 1 := ⟨f - 1, by have := needJ_pos v; omega⟩
      simp only [parseValue_ws spaceC (by decide),
        rt_J v (g + 1) (printSepO tl ++ rbraceC :: suffix) hv (numSafe_sepO tl suffix),
        rt_OT tl (g + 1) suffix htl]
termination_by structural kvs

/-- Object continuation parser on a printed `, `-separated member tail
followed by `}`. -/
theorem rt_OT (kvs : JsonObj) : ∀ (f : Nat) (suffix : List Char), needOT kvs ≤ f →
    parseObjTail f (printSepO kvs ++ rbraceC :: suffix) = some (kvs, suffix) := by
  cases kvs with
  | nil =>
    intro f suffix hf
    cases f with
    | zero => exact absurd hf (by simp [needOT])
    | succ f =>
      show parseObjTail (f + 1) (rbraceC :: suffix) = _
      simp +decide [parseObjTail, skipWs]
  | cons k v tl =>
    intro f suffix hf
    cases f with
    | zero => exact absurd hf (by simp [needOT])
    | succ f =>
      have hmax : Nat.max (needJ v) (needOT tl) ≤ f := by
        have h2 : 1 + Nat.max (needJ v) (needOT tl) ≤ f + 1 := by simpa [needOT] using hf
        omega
      have hv : needJ v ≤ f := le_trans (Nat.le_max_left _ _) hmax
      have htl : needOT tl ≤ f := le_trans (Nat.le_max_right _ _) hmax
      obtain ⟨kd⟩ := k
      have hshape : printSepO (.cons (String.mk kd) v tl) ++ rbraceC :: suffix
          = commaC :: (spaceC :: (quoteC :: ((kd.map escapeChar).flatten ++ quoteC ::
              (colonC :: (spaceC :: (printJ v ++ (printSepO tl ++ rbraceC :: suffix))))))) := by
        simp [printSepO, printStr]
      rw [hshape]
      simp only [parseObjTail, skipWs_not commaC (by decide),
        show (commaC = rbraceC) = False from by decide, if_false,
        eq_self_iff_true, if_true, skipWs_ws spaceC (by decide),
        skipWs_not quoteC (by decide), parseStr_printed,
        skipWs_not colonC (by decide)]
      obtain ⟨g, rfl⟩ : ∃ g, f = g + 1 := ⟨f - 1, by have := needJ_pos v; omega⟩
      simp only [parseValue_ws spaceC (by decide),
        rt_J v (g + 1) (printSepO tl ++ rbraceC :: suffix) hv (numSafe_sepO tl suffix),
        rt_OT tl (g + 1) suffix htl]
termination_by structural kvs

end

end Hdx
namespace Hdx

theorem printJ_len_pos (j : Json) : 1 ≤ (printJ j).length := by
  obtain ⟨c, rest, hP, -⟩ := printJ_head j
  rw [hP]
  simp

theorem printStr_len (s : String) : 2 ≤ (printStr s).length := by
  simp [printStr]

mutual

theorem needJ_le (j : Json) : needJ j ≤ (printJ j).length + 1 := by
  cases j with
  | null => simp [needJ, printJ]
  | bool b => cases b <;> simp [needJ, printJ]
  | int n => simp only [needJ]; omega
  | str s => simp only [needJ]; omega
  | arr xs =>
    have h := needAS_le xs
    simp only [needJ, printJ, List.length_cons, List.length_append]
    omega
  | obj kvs =>
    have h := needOS_le kvs
    simp only [needJ, printJ, List.length_cons, List.length_append]
    omega
termination_by structural j

theorem needAS_le (xs : JsonList) : needAS xs ≤ (printL xs).length + 2 := by
  cases xs with
  | nil => simp [needAS, printL]
  | cons x tl =>
    have h1 := needJ_le x
    have h2 := needAT_le tl
    have h3 := printJ_len_pos x
    simp only [needAS, printL, List.length_append]
    have hm : Nat.max (needJ x) (needAT tl)
        ≤ (printJ x).length + (printSepL tl).length + 1 :=
      Nat.max_le.mpr ⟨by omega, by omega⟩
    omega
termination_by structural xs

theorem needAT_le (tl : JsonList) : needAT tl ≤ (printSepL tl).length + 2 := by
  cases tl with
  | nil => simp [needAT, printSepL]
  | cons x tl =>
    have h1 := needJ_le x
    have h2 := needAT_le tl
    simp only [needAT, printSepL, List.length_cons, List.length_append]
    have hm : Nat.max (needJ x) (needAT tl)
        ≤ (printJ x).length + (printSepL tl).length + 3 :=
      Nat.max_le.mpr ⟨by omega, by omega⟩
    omega
termination_by structural tl

theorem needOS_le (kvs : JsonObj) : needOS kvs ≤ (printO kvs).length + 2 := by
  cases kvs with
  | nil => simp [needOS, printO]
  | cons k v tl =>
    have h1 := needJ_le v
    have h2 := needOT_le tl
    have h3 := printStr_len k
    simp only [needOS, printO, List.length_cons, List.length_append]
    have hm : Nat.max (needJ v) (needOT tl)
        ≤ (printStr k).length + (printJ v).length + (printSepO tl).length + 3 :=
      Nat.max_le.mpr ⟨by omega, by omega⟩
    omega
termination_by structural kvs

theorem needOT_le (kvs : JsonObj) : needOT kvs ≤ (printSepO kvs).length + 2 := by
  cases kvs with
  | nil => simp [needOT, printSepO]
  | cons k v tl =>
    have h1 := needJ_le v
    have h2 := needOT_le tl
    simp only [needOT, printSepO, List.length_cons, List.length_append]
    have hm : Nat.max (needJ v) (needOT tl)
        ≤ (printStr k).length + (printJ v).length + (printSepO tl).length + 5 :=
      Nat.max_le.mpr ⟨by omega, by omega⟩
    omega
termination_by structural kvs

end

/-- `json.loads` inverts the printer on any value of the embedded
fragment. -/
theorem loads_printJ (j : Json) : loads (printJ j) = some j := by
  unfold loads
  have h2 := rt_J j ((printJ j).length + 1) [] (needJ_le j) rfl
  rw [show printJ j ++ ([] : List Char) = printJ j from by simp] at h2
  rw [h2]
  rfl

/-- `json.loads` inverts `json.dumps` up to key canonicalisation. -/
theorem loads_dumps (j : Json) : loads (dumps j) = some (canon j) :=
  loads_printJ (canon j)

theorem utf8Char_lt (c : Char) : ∀ b ∈ utf8Char c, b < 256 := by
  have hfacts := char_toNat_facts c
  intro b hb
  by_cases h1 : c.toNat < 128
  · rw [show utf8Char c = [c.toNat] from by simp [utf8Char, h1]] at hb
    simp at hb
    omega
  · by_cases h2 : c.toNat < 2048
    · rw [show utf8Char c = [192 + c.toNat / 64, 128 + c.toNat % 64] from by
        simp [utf8Char, h1, h2]] at hb
      simp at hb
      rcases hb with rfl | rfl <;> omega
    · by_cases h3 : c.toNat < 65536
      · rw [show utf8Char c
            = [224 + c.toNat / 4096, 128 + c.toNat / 64 % 64, 128 + c.toNat % 64] from by
          simp [utf8Char, h1, h2, h3]] at hb
        simp at hb
        rcases hb with rfl | rfl | rfl <;> omega
      · rw [show utf8Char c = [240 + c.toNat / 262144, 128 + c.toNat / 4096 % 64,
            128 + c.toNat / 64 % 64, 128 + c.toNat % 64] from by
          simp [utf8Char, h1, h2, h3]] at hb
        simp at hb
        rcases hb with rfl | rfl | rfl | rfl <;> omega

theorem utf8Char_ne_nil (c : Char) : utf8Char c ≠ [] := by
  by_cases h1 : c.toNat < 128
  · rw [show utf8Char c = [c.toNat] from by simp [utf8Char, h1]]
    simp
  · by_cases h2 : c.toNat < 2048
    · rw [show utf8Char c = [192 + c.toNat / 64, 128 + c.toNat % 64] from by
        simp [utf8Char, h1, h2]]
      simp
    · by_cases h3 : c.toNat < 65536
      · rw [show utf8Char c = [224 + c.toNat / 4096, 128 + c.toNat / 64 % 64,
          128 + c.toNat % 64] from by simp [utf8Char, h1, h2, h3]]
        simp
      · rw [show utf8Char c = [240 + c.toNat / 262144, 128 + c.toNat / 4096 % 64,
          128 + c.toNat / 64 % 64, 128 + c.toNat % 64] from by simp [utf8Char, h1, h2, h3]]
        simp

theorem utf8EncodeL_len (cs : List Char) : cs.length ≤ (utf8EncodeL cs).length := by
  induction cs with
  | nil => simp [utf8EncodeL]
  | cons c cs ih =>
    have h := List.length_pos.mpr (utf8Char_ne_nil c)
    simp only [utf8EncodeL, List.map_cons, List.flatten_cons, List.length_append,
      List.length_cons]
    simp only [utf8EncodeL] at ih
    omega

theorem utf8CharF_decode (c : Char) (f : Nat) (rest : List Nat) :
    utf8DecodeF (f + 1) (utf8Char c ++ rest) = (utf8DecodeF f rest).map fun s => c :: s := by
  have hfacts := char_toNat_facts c
  by_cases h1 : c.toNat < 128
  · rw [show utf8Char c = [c.toNat] from by simp [utf8Char, h1]]
    show utf8DecodeF (f + 1) (c.toNat :: rest) = _
    simp only [utf8DecodeF]
    rw [if_pos h1, Char.ofNat_toNat]
    cases h : utf8DecodeF f rest <;> simp
  · by_cases h2 : c.toNat < 2048
    · rw [show utf8Char c = [192 + c.toNat / 64, 128 + c.toNat % 64] from by
        simp [utf8Char, h1, h2]]
      show utf8DecodeF (f + 1) ((192 + c.toNat / 64) :: (128 + c.toNat % 64) :: rest) = _
      have hcont : contByte (128 + c.toNat % 64) = true := by
        simp only [contByte, decide_eq_true_eq]
        omega
      simp only [utf8DecodeF]
      rw [if_neg (by omega : ¬(192 + c.toNat / 64 < 128)),
        if_neg (by omega : ¬(192 + c.toNat / 64 < 194)),
        if_pos (by omega : 192 + c.toNat / 64 < 224),
        if_pos hcont,
        show (192 + c.toNat / 64 - 192) * 64 + (128 + c.toNat % 64 - 128) = c.toNat from by
          omega,
        Char.ofNat_toNat]
      cases h : utf8DecodeF f rest <;> simp
    · by_cases h3 : c.toNat < 65536
      · rw [show utf8Char c
            = [224 + c.toNat / 4096, 128 + c.toNat / 64 % 64, 128 + c.toNat % 64] from by
          simp [utf8Char, h1, h2, h3]]
        show utf8DecodeF (f + 1) ((224 + c.toNat / 4096) :: (128 + c.toNat / 64 % 64) ::
          (128 + c.toNat % 64) :: rest) = _
        have hc2 : contByte (128 + c.toNat / 64 % 64) = true := by
          simp only [contByte, decide_eq_true_eq]
          omega
        have hc3 : contByte (128 + c.toNat % 64) = true := by
          simp only [contByte, decide_eq_true_eq]
          omega
        simp only [utf8DecodeF]
        rw [if_neg (by omega : ¬(224 + c.toNat / 4096 < 128)),
          if_neg (by omega : ¬(224 + c.toNat / 4096 < 194)),
          if_neg (by omega : ¬(224 + c.toNat / 4096 < 224)),
          if_pos (by omega : 224 + c.toNat / 4096 < 240),
          if_pos ⟨hc2, hc3⟩]
        rw [show (224 + c.toNat / 4096 - 224) * 4096 + (128 + c.toNat / 64 % 64 - 128) * 64
            + (128 + c.toNat % 64 - 128) = c.toNat from by omega]
        rw [if_pos ⟨by omega, by omega⟩, Char.ofNat_toNat]
        cases h : utf8DecodeF f rest <;> simp
      · rw [show utf8Char c = [240 + c.toNat / 262144, 128 + c.toNat / 4096 % 64,
            128 + c.toNat / 64 % 64, 128 + c.toNat % 64] from by
          simp [utf8Char, h1, h2, h3]]
        show utf8DecodeF (f + 1) ((240 + c.toNat / 262144) :: (128 + c.toNat / 4096 % 64) ::
          (128 + c.toNat / 64 % 64) :: (128 + c.toNat % 64) :: rest) = _
        have hc2 : contByte (128 + c.toNat / 4096 % 64) = true := by
          simp only [contByte, decide_eq_true_eq]
          omega
        have hc3 : contByte (128 + c.toNat / 64 % 64) = true := by
          simp only [contByte, decide_eq_true_eq]
          omega
        have hc4 : contByte (128 + c.toNat % 64) = true := by
          simp only [contByte, decide_eq_true_eq]
          omega
        simp only [utf8DecodeF]
        rw [if_neg (by omega : ¬(240 + c.toNat / 262144 < 128)),
          if_neg (by omega : ¬(240 + c.toNat / 262144 < 194)),
          if_neg (by omega : ¬(240 + c.toNat / 262144 < 224)),
          if_neg (by omega : ¬(240 + c.toNat / 262144 < 240)),
          if_pos (by omega : 240 + c.toNat / 262144 < 245),
          if_pos ⟨hc2, hc3, hc4⟩]
        rw [show (240 + c.toNat / 262144 - 240) * 262144 + (128 + c.toNat / 4096 % 64 - 128)
            * 4096 + (128 + c.toNat / 64 % 64 - 128) * 64 + (128 + c.toNat % 64 - 128)
            = c.toNat from by omega]
        rw [if_pos ⟨by omega, by omega⟩, Char.ofNat_toNat]
        cases h : utf8DecodeF f rest <;> simp

theorem utf8_roundtripF (cs : List Char) : ∀ (f : Nat), cs.length < f →
    utf8DecodeF f (utf8EncodeL cs) = some cs := by
  induction cs with
  | nil =>
    intro f hf
    cases f with
    | zero => omega
    | succ g => rfl
  | cons c cs ih =>
    intro f hf
    cases f with
    | zero => omega
    | succ g =>
      show utf8DecodeF (g + 1) (utf8Char c ++ utf8EncodeL cs) = _
      rw [utf8CharF_decode, ih g (by simp at hf; omega)]
      rfl

/-- `bytes.decode()` inverts `str.encode()`. -/
theorem utf8_roundtrip (cs : List Char) : utf8Decode (utf8EncodeL cs) = some cs := by
  unfold utf8Decode
  apply utf8_roundtripF
  have h := utf8EncodeL_len cs
  omega

end Hdx
namespace Hdx

theorem b64T_val : ∀ n, n < 64 → b64Val (urlsafeTranslate (b64Char n)) = some n := by decide

theorem b64T_ne_eq : ∀ n, n < 64 → urlsafeTranslate (b64Char n) ≠ eqC := by decide

theorem b64T_eqC : urlsafeTranslate eqC = eqC := by decide

theorem b64Encode_mem : ∀ (bs : List Nat), (∀ b ∈ bs, b < 256) →
    ∀ c ∈ b64Encode bs, c = eqC ∨ ∃ k, k < 64 ∧ c = b64Char k
  | [] => by
    intro h c hc
    simp [b64Encode] at hc
  | [b1] => by
    intro h c hc
    have hb1 : b1 < 256 := h b1 (by simp)
    simp only [b64Encode, List.mem_cons, List.not_mem_nil, or_false] at hc
    rcases hc with rfl | rfl | rfl | rfl
    · exact Or.inr ⟨b1 / 4, by omega, rfl⟩
    · exact Or.inr ⟨b1 % 4 * 16, by omega, rfl⟩
    · exact Or.inl rfl
    · exact Or.inl rfl
  | [b1, b2] => by
    intro h c hc
    have hb1 : b1 < 256 := h b1 (by simp)
    have hb2 : b2 < 256 := h b2 (by simp)
    simp only [b64Encode, List.mem_cons, List.not_mem_nil, or_false] at hc
    rcases hc with rfl | rfl | rfl | rfl
    · exact Or.inr ⟨b1 / 4, by omega, rfl⟩
    · exact Or.inr ⟨b1 % 4 * 16 + b2 / 16, by omega, rfl⟩
    · exact Or.inr ⟨b2 % 16 * 4, by omega, rfl⟩
    · exact Or.inl rfl
  | b1 :: b2 :: b3 :: rest => by
    intro h c hc
    have hb1 : b1 < 256 := h b1 (by simp)
    have hb2 : b2 < 256 := h b2 (by simp)
    have hb3 : b3 < 256 := h b3 (by simp)
    have ih := b64Encode_mem rest fun b hb => h b (by simp [hb])
    simp only [b64Encode, List.mem_cons] at hc
    rcases hc with rfl | rfl | rfl | rfl | hc
    · exact Or.inr ⟨b1 / 4, by omega, rfl⟩
    · exact Or.inr ⟨b1 % 4 * 16 + b2 / 16, by omega, rfl⟩
    · exact Or.inr ⟨b2 % 16 * 4 + b3 / 64, by omega, rfl⟩
    · exact Or.inr ⟨b3 % 64, by omega, rfl⟩
    · exact ih c hc

theorem b64DecodeGroups_encode : ∀ (bs : List Nat), (∀ b ∈ bs, b < 256) →
    b64DecodeGroups ((b64Encode bs).map urlsafeTranslate) = some bs
  | [] => by
    intro h
    rfl
  | [b1] => by
    intro h
    have hb1 : b1 < 256 := h b1 (by simp)
    show b64DecodeGroups (urlsafeTranslate (b64Char (b1 / 4)) ::
      urlsafeTranslate (b64Char (b1 % 4 * 16)) ::
      urlsafeTranslate eqC :: urlsafeTranslate eqC :: []) = _
    rw [b64T_eqC]
    simp only [b64DecodeGroups, b64T_val (b1 / 4) (by omega),
      b64T_val (b1 % 4 * 16) (by omega), eq_self_iff_true, and_self, and_true, true_and,
      if_true]
    rw [show b1 / 4 * 4 + b1 % 4 * 16 / 16 = b1 from by omega]
  | [b1, b2] => by
    intro h
    have hb1 : b1 < 256 := h b1 (by simp)
    have hb2 : b2 < 256 := h b2 (by simp)
    show b64DecodeGroups (urlsafeTranslate (b64Char (b1 / 4)) ::
      urlsafeTranslate (b64Char (b1 % 4 * 16 + b2 / 16)) ::
      urlsafeTranslate (b64Char (b2 % 16 * 4)) :: urlsafeTranslate eqC :: []) = _
    rw [b64T_eqC]
    simp only [b64DecodeGroups, b64T_val (b1 / 4) (by omega),
      b64T_val (b1 % 4 * 16 + b2 / 16) (by omega), b64T_val (b2 % 16 * 4) (by omega),
      show (urlsafeTranslate (b64Char (b2 % 16 * 4)) = eqC) = False from
        eq_false (b64T_ne_eq (b2 % 16 * 4) (by omega)),
      eq_self_iff_true, and_self, and_true, true_and, false_and, if_true, if_false]
    rw [show b1 / 4 * 4 + (b1 % 4 * 16 + b2 / 16) / 16 = b1 from by omega,
      show (b1 % 4 * 16 + b2 / 16) % 16 * 16 + b2 % 16 * 4 / 4 = b2 from by omega]
  | b1 :: b2 :: b3 :: rest => by
    intro h
    have hb1 : b1 < 256 := h b1 (by simp)
    have hb2 : b2 < 256 := h b2 (by simp)
    have hb3 : b3 < 256 := h b3 (by simp)
    have ih := b64DecodeGroups_encode rest fun b hb => h b (by simp [hb])
    show b64DecodeGroups (urlsafeTranslate (b64Char (b1 / 4)) ::
      urlsafeTranslate (b64Char (b1 % 4 * 16 + b2 / 16)) ::
      urlsafeTranslate (b64Char (b2 % 16 * 4 + b3 / 64)) ::
      urlsafeTranslate (b64Char (b3 % 64)) :: (b64Encode rest).map urlsafeTranslate) = _
    simp only [b64DecodeGroups, b64T_val (b1 / 4) (by omega),
      b64T_val (b1 % 4 * 16 + b2 / 16) (by omega),
      b64T_val (b2 % 16 * 4 + b3 / 64) (by omega), b64T_val (b3 % 64) (by omega),
      show (urlsafeTranslate (b64Char (b2 % 16 * 4 + b3 / 64)) = eqC) = False from
        eq_false (b64T_ne_eq (b2 % 16 * 4 + b3 / 64) (by omega)),
      show (urlsafeTranslate (b64Char (b3 % 64)) = eqC) = False from
        eq_false (b64T_ne_eq (b3 % 64) (by omega)),
      false_and, if_false, ih]
    rw [show b1 / 4 * 4 + (b1 % 4 * 16 + b2 / 16) / 16 = b1 from by omega,
      show (b1 % 4 * 16 + b2 / 16) % 16 * 16 + (b2 % 16 * 4 + b3 / 64) / 4 = b2 from by
        omega,
      show (b2 % 16 * 4 + b3 / 64) % 4 * 64 + b3 % 64 = b3 from by omega]

theorem b64Encode_filter (bs : List Nat) (h : ∀ b ∈ bs, b < 256) :
    ((b64Encode bs).map urlsafeTranslate).filter
      (fun c => (b64Val c).isSome ∨ c = eqC) = (b64Encode bs).map urlsafeTranslate := by
  rw [List.filter_eq_self]
  intro c hc
  rw [List.mem_map] at hc
  rcases hc with ⟨d, hd, rfl⟩
  rcases b64Encode_mem bs h d hd with rfl | ⟨k, hk, rfl⟩
  · rw [b64T_eqC]
    simp
  · have hv := b64T_val k hk
    simp [hv]

/-- `urlsafe_b64decode` inverts `urlsafe_b64encode` on byte strings. -/
theorem b64_roundtrip (bs : List Nat) (h : ∀ b ∈ bs, b < 256) :
    b64Decode (b64Encode bs) = some bs := by
  unfold b64Decode
  rw [b64Encode_filter bs h, b64DecodeGroups_encode bs h]

theorem utf8EncodeL_lt (cs : List Char) : ∀ b ∈ utf8EncodeL cs, b < 256 := by
  intro b hb
  simp only [utf8EncodeL] at hb
  rw [List.mem_flatten] at hb
  rcases hb with ⟨l, hl, hbl⟩
  rw [List.mem_map] at hl
  rcases hl with ⟨c, -, rfl⟩
  exact utf8Char_lt c b hbl

/-- The full cursor codec roundtrip: decoding an encoded cursor recovers
the JSON value, with object keys in sorted order (`sort_keys=True`). -/
theorem decode_encode (j : Json) : decode_cursor (encode_cursor j) = .ok (canon j) := by
  unfold decode_cursor encode_cursor
  rw [show (String.mk (b64Encode (utf8EncodeL (dumps j)))).data
      = b64Encode (utf8EncodeL (dumps j)) from rfl]
  simp only [b64_roundtrip _ (utf8EncodeL_lt _), utf8_roundtrip, loads_dumps]

end Hdx
namespace Hdx

/-! ### C5: cursor codec roundtrip on valid CursorData -/

/-- `Optional[str]`: the type of a `params` entry value. -/
def isStrOrNull : Json → Bool
  | .null => true
  | .str _ => true
  | _ => false

def paramsOk : JsonObj → Bool
  | .nil => true
  | .cons _ v tl => isStrOrNull v && paramsOk tl

/-- One `CursorData` entry fits the TypedDict: `type : str`,
`offset : int`, `params : dict[str, Optional[str]]`, `query_hash : str`
(`total=False`: every key optional, no other key allowed). -/
def cursorFieldOk (k : String) (v : Json) : Bool :=
  if k = "type" then (match v with | .str _ => true | _ => false)
  else if k = "offset" then (match v with | .int _ => true | _ => false)
  else if k = "params" then (match v with | .obj ps => paramsOk ps | _ => false)
  else if k = "query_hash" then (match v with | .str _ => true | _ => false)
  else false

def fieldsOk : JsonObj → Bool
  | .nil => true
  | .cons k v tl => cursorFieldOk k v && fieldsOk tl

/-- A valid `CursorData` value: a JSON object whose entries fit the
`CursorData` TypedDict, given in the canonical sorted-key association-list
representative — the embedding's unique representative of a Python dict
value (Python dicts with equal key/value mappings are one value, compared
with `==` irrespective of insertion order). -/
def validCursorData (c : Json) : Bool :=
  (match c with
   | .obj kvs => fieldsOk kvs
   | _ => false) && (canon c == c)

/-- C5: for every valid `CursorData` value `c`,
`decode_cursor (encode_cursor c) = c`: the opaque URL-safe cursor encoding
(JSON dump with sorted keys, UTF-8 encode, URL-safe base64) round-trips
exactly through base64 decode, UTF-8 decode and `json.loads`. -/
theorem claim_C5_cursor_roundtrip (c : Json) (h : validCursorData c = true) :
    decode_cursor (encode_cursor c) = .ok c := by
  have h2 : canon c = c := by
    simp only [validCursorData, Bool.and_eq_true] at h
    exact eq_of_beq h.2
  rw [decode_encode, h2]

/-- A typical table-list cursor value, keys in sorted order. -/
def c5Cursor : Json :=
  .obj (.cons "offset" (.int 50) (.cons "type" (.str "table_list") .nil))

/-- C5 witness: the roundtrip at a concrete cursor value. -/
theorem claim_C5_cursor_roundtrip_witness :
    validCursorData c5Cursor = true ∧
      decode_cursor (encode_cursor c5Cursor) = .ok c5Cursor :=
  ⟨by decide, claim_C5_cursor_roundtrip c5Cursor (by decide)⟩

end Hdx

namespace Hdx

/-! ### C10: decode_cursor performs no structural validation -/

/-- C10: `decode_cursor` succeeds on the URL-safe base64 encoding of any
JSON document whatsoever — no type tag, offset or params check after
parsing (errors arise only from base64/UTF-8/JSON decoding itself) — and
both tools treat a cursor without an `"offset"` key as offset `0`:
`cursor_data.get("offset", 0)` in `list_tables` (after parameter
validation) and in `run_select_query` (after the query-hash check). -/
theorem claim_C10_decode_no_validation :
    (∀ j : Json, decode_cursor (String.mk (b64Encode (utf8EncodeL (printJ j)))) = .ok j) ∧
    (∀ kvs : JsonObj, kvs.get "offset" = none → cursorOffset kvs = 0) ∧
    (∀ (query : String) (kvs : JsonObj), kvs.get "offset" = none →
      kvs.get "query_hash" = some (.str (hash_query query)) →
      runSelectCursorStep query (.obj kvs) = .ok 0) ∧
    (∀ (database : String) (like not_like : Option String) (cursor : String)
      (kvs : JsonObj), decode_cursor cursor = .ok (.obj kvs) →
      validate_cursor_params kvs (tableListExpectedParams database like not_like)
        = .ok () →
      kvs.get "offset" = none →
      listTablesCursorStep database like not_like cursor = .ok 0) := by
  refine ⟨?_, ?_, ?_, ?_⟩
  · intro j
    unfold decode_cursor
    rw [show (String.mk (b64Encode (utf8EncodeL (printJ j)))).data
        = b64Encode (utf8EncodeL (printJ j)) from rfl]
    simp only [b64_roundtrip _ (utf8EncodeL_lt _), utf8_roundtrip, loads_printJ]
  · intro kvs h
    simp [cursorOffset, h]
  · intro query kvs hoff hq
    simp only [runSelectCursorStep, hq]
    simp [cursorOffset, hoff]
  · intro database like not_like cursor kvs hdec hval hoff
    simp only [listTablesCursorStep, hdec, hval]
    simp [cursorOffset, hoff]

/-- A JSON document that is not even an object. -/
def c10Doc : Json := .arr (.cons (.int 7) .nil)

/-- A query-result cursor carrying only the matching query hash. -/
def c10Kvs : JsonObj :=
  .cons "query_hash" (.str (hash_query "SELECT 1")) .nil

/-- A table-list cursor carrying only matching params (no offset). -/
def c10ParamsKvs : JsonObj :=
  .cons "params" (.obj (.cons "database" (.str "db")
    (.cons "like" .null (.cons "not_like" .null .nil)))) .nil

/-- C10 witness: all four parts at concrete inputs. -/
theorem claim_C10_decode_no_validation_witness :
    decode_cursor (String.mk (b64Encode (utf8EncodeL (printJ c10Doc)))) = .ok c10Doc ∧
    cursorOffset (.cons "type" (.str "table_list") .nil) = 0 ∧
    runSelectCursorStep "SELECT 1" (.obj c10Kvs) = .ok 0 ∧
    listTablesCursorStep "db" none none (encode_cursor (.obj c10ParamsKvs)) = .ok 0 :=
  ⟨claim_C10_decode_no_validation.1 c10Doc,
   claim_C10_decode_no_validation.2.1 _ (by decide),
   claim_C10_decode_no_validation.2.2.1 "SELECT 1" c10Kvs (by decide) (by decide),
   claim_C10_decode_no_validation.2.2.2 "db" none none _ c10ParamsKvs (by decide)
     (by decide) (by decide)⟩

end Hdx
namespace Hdx

/-! ### C9: list pagination protocol and completeness -/

theorem canon_optStr (x : Option String) : canon (optStrJson x) = optStrJson x := by
  cases x <;> simp [optStrJson, canon]

/-- Sorting the keys of the `list_tables` next-page cursor payload. -/
theorem canon_tableListCursor (db : String) (like nl : Option String) (off : Int) :
    canon (tableListCursorJson db like nl off)
      = .obj (.cons "offset" (.int off)
          (.cons "params" (.obj (.cons "database" (.str db)
            (.cons "like" (optStrJson like)
              (.cons "not_like" (optStrJson nl) .nil))))
            (.cons "type" (.str "table_list") .nil))) := by
  cases like <;> cases nl <;>
    simp +decide [tableListCursorJson, optStrJson, canon, canonO, objInsert, keyLt]

/-- Decoding and validating a just-encoded table-list cursor yields its
offset. -/
theorem listTablesCursorStep_encode (db : String) (like nl : Option String) (off : Int) :
    listTablesCursorStep db like nl (encode_cursor (tableListCursorJson db like nl off))
      = .ok off := by
  simp only [listTablesCursorStep, decode_encode, canon_tableListCursor]
  simp +decide [validate_cursor_params, validateLoop, cursorParamsOf, JsonObj.get,
    tableListExpectedParams, cursorOffset]

set_option maxRecDepth 40000 in
/-- C9: each page request fetches `page_size + 1` catalog rows at the
cursor's offset; if the extra row is present it is trimmed and
`next_cursor` carries the offset advanced by `page_size`, otherwise
`next_cursor` is null.  Following cursors over a 125-table catalog at page
size 50 yields exactly 3 pages of sizes 50, 50 and 25, `nextCursor` null
only on the last, and the concatenated pages equal the duplicate-free
catalog. -/
theorem claim_C9_pagination :
    (∀ (ps : Nat) (catalog : List String) (db : String) (like nl : Option String)
      (off : Int), 0 ≤ off →
      list_tables ps true true catalog db like nl
          (some (encode_cursor (tableListCursorJson db like nl off)))
        = (if ps < ((catalog.drop off.toNat).take (ps + 1)).length then
            .ok (.paged (((catalog.drop off.toNat).take (ps + 1)).take ps)
              (some (encode_cursor (tableListCursorJson db like nl (off + ps))))
              ps (off + ps))
          else
            .ok (.paged ((catalog.drop off.toNat).take (ps + 1)) none
              ((catalog.drop off.toNat).take (ps + 1)).length
              (off + ((catalog.drop off.toNat).take (ps + 1)).length)))) ∧
    ((followTablePages 50 ((List.range 125).map toString) "db" none none 3 none).map
        (fun p => p.1.length) = [50, 50, 25] ∧
      (followTablePages 50 ((List.range 125).map toString) "db" none none 3 none).map
        (fun p => p.2.isSome) = [true, true, false] ∧
      ((followTablePages 50 ((List.range 125).map toString) "db" none none 3 none).map
        (fun p => p.1)).flatten = (List.range 125).map toString ∧
      ((List.range 125).map toString).Nodup) := by
  constructor
  · intro ps catalog db like nl off hoff
    simp only [list_tables, listTablesCursorStep_encode]
    by_cases hmore : ps < ((catalog.drop off.toNat).take (ps + 1)).length
    · rw [if_pos hmore]
      have hlen : (((catalog.drop off.toNat).take (ps + 1)).take ps).length = ps := by
        rw [List.length_take]
        omega
      rw [List.length_take, List.length_drop] at hmore
      simp [hmore, hlen]
    · rw [if_neg hmore]
      rw [List.length_take, List.length_drop] at hmore
      simp [hmore]
  · refine ⟨by decide, by decide, by decide, ?_⟩
    decide

end Hdx

namespace Hdx

/-- C9 witness: the page law at a concrete catalog, page size and
cursor offset. -/
theorem claim_C9_pagination_witness :
    (0 : Int) ≤ 2 ∧
      list_tables 2 true true ["a", "b", "c", "d", "e"] "db" none none
          (some (encode_cursor (tableListCursorJson "db" none none 2)))
        = (if 2 < (((["a", "b", "c", "d", "e"] : List String).drop
              (2 : Int).toNat).take (2 + 1)).length then
            .ok (.paged ((((["a", "b", "c", "d", "e"] : List String).drop
                (2 : Int).toNat).take (2 + 1)).take 2)
              (some (encode_cursor (tableListCursorJson "db" none none ((2 : Int) + (2 : Nat)))))
              2 ((2 : Int) + (2 : Nat)))
          else
            .ok (.paged (((["a", "b", "c", "d", "e"] : List String).drop
                (2 : Int).toNat).take (2 + 1)) none
              (((["a", "b", "c", "d", "e"] : List String).drop (2 : Int).toNat).take
                (2 + 1)).length
              ((2 : Int) + ((((["a", "b", "c", "d", "e"] : List String).drop
                (2 : Int).toNat).take (2 + 1)).length : Nat)))) :=
  ⟨by decide, claim_C9_pagination.1 2 ["a", "b", "c", "d", "e"] "db" none none 2 (by decide)⟩

end Hdx
